import Mathlib

/-
  Verification development for the Rocket.Chat data importer
  (zerver/data_import/rocketchat.py and zerver/data_import/rocketchat1.py).

  The Python source is shallowly embedded below: pure functions become Lean
  functions, the mutable id mappers and named counters become explicitly
  threaded state, Python dict accesses that can raise KeyError / IndexError
  become Option-valued computations, and Python str.replace becomes a
  character-list replacement function with the same left-to-right,
  non-overlapping semantics.
-/

set_option autoImplicit false

/-! ## Named counters (sequencer) -/

/-- Modelled from the spec: the module zerver/data_import/sequencer.py
(providing NEXT_ID) is not under src/.  Spec section 4.2: a run-scoped table of
named monotonically increasing counters; next(name) returns the counter's
current value then increments it; an unseen name starts at 0. -/
abbrev SeqTab := String → Nat

/-- Modelled from the spec (section 4.2): NEXT_ID(name) returns the current
value of the named counter and increments it; an unseen name starts at 0. -/
def NEXT_ID (seq : SeqTab) (name : String) : Nat × SeqTab :=
  (seq name, fun n => if n = name then seq name + 1 else seq n)

/-- The fresh counter table at the start of a run: every name is at 0. -/
def seq0 : SeqTab := fun _ => 0

/-! ## IdMapper -/

/-- Modelled from the spec: the IdMapper class lives in
zerver/data_import/sequencer.py, which is not under src/.  Spec section 4.1:
one instance per entity-type namespace; `get(source_key)` returns the
previously assigned integer if the key was seen before, otherwise assigns the
next integer starting at a configurable floor (default 0), records the
mapping and returns it.  No removal operation.  The recorded mapping is an
association list, newest entry first (lookup finds the newest). -/
structure IdMapper where
  map : List (String × Nat)
  next : Nat
deriving DecidableEq

/-- Modelled from the spec (section 4.1): a fresh mapper whose next assigned
integer is the configured floor. -/
def IdMapper.new (floor : Nat) : IdMapper := ⟨[], floor⟩

/-- Modelled from the spec (section 4.1): get(source_key). -/
def IdMapper.get (m : IdMapper) (k : String) : Nat × IdMapper :=
  match m.map.lookup k with
  | some v => (v, m)
  | none => (m.next, ⟨(k, m.next) :: m.map, m.next + 1⟩)

/-- A run of sequential `get` calls, one per key in the list. -/
def IdMapper.runKeys (m : IdMapper) : List String → IdMapper
  | [] => m
  | k :: rest => IdMapper.runKeys (m.get k).2 rest

/-! ## Python str.replace on character lists -/

/-- Python str.replace semantics on character lists: replace every
non-overlapping occurrence of `pat` in the subject, scanning left to right.
The fuel argument (always instantiated with the subject's length) makes the
recursion structural; each step consumes at least one subject character. -/
def replaceAllFuel (pat rep : List Char) : Nat → List Char → List Char
  | _, [] => []
  | 0, l => l
  | fuel + 1, c :: rest =>
    if (!pat.isEmpty) && pat.isPrefixOf (c :: rest) then
      rep ++ replaceAllFuel pat rep fuel ((c :: rest).drop pat.length)
    else
      c :: replaceAllFuel pat rep fuel rest

/-- Python str.replace on character lists. -/
def replaceAll (pat rep l : List Char) : List Char :=
  replaceAllFuel pat rep l.length l

/-- Python `s.replace(pat, rep)` on strings (content.replace in fix_mentions). -/
def pyReplace (s pat rep : String) : String :=
  ⟨replaceAll pat.data rep.data s.data⟩

/-- Python `react_code.split(":")`: full split of a character list at colons. -/
def splitColonAux : List Char → List Char → List (List Char)
  | [], acc => [acc.reverse]
  | c :: rest, acc =>
    if c = ':' then acc.reverse :: splitColonAux rest [] else splitColonAux rest (c :: acc)

/-- Python `react_code.split(":")[1]`: the second component of the split, or
failure (IndexError) when the code contains no colon. -/
def splitColonSecond (s : String) : Option String :=
  match (splitColonAux s.data []).get? 1 with
  | some cs => some ⟨cs⟩
  | none => none

/-! ## Data model -/

/-- The pieces of a converted user record that mention rewriting reads back
from the user handler (short_name and full_name of build_user_profile). -/
structure UserInfo where
  short_name : String
  full_name : String
deriving DecidableEq

/-- One entry of the reactions_list built by list_reactions:
a dict with a "name" and a "user_id". -/
structure RCReaction where
  name : String
  user_id : Nat
deriving DecidableEq

/-- The message_dict produced by message_to_dict and consumed by
process_raw_message_batch. -/
structure RawMessage where
  sender_id : Nat
  content : String
  date_sent : Int
  reactions : List RCReaction
  recipient_id : Nat
  topic_name : String
  mention_user_ids : List Nat
deriving DecidableEq

/-- A zerver_message record as assembled by build_message from the fields
process_raw_message_batch passes it. -/
structure ZMessage where
  id : Nat
  sender_id : Nat
  recipient_id : Nat
  content : String
  topic_name : String
  date_sent : Int
deriving DecidableEq

/-- A zerver_reaction record as assembled by build_reactions. -/
structure ZReaction where
  id : Nat
  emoji_code : String
  emoji_name : String
  message_id : Nat
  user_id : Nat
deriving DecidableEq

/-- One message-batch output artifact: the dump file number and the
zerver_message list serialized into it.  (The zerver_usermessage rows are
built by make_user_messages from zerver/data_import/import_util.py, which is
outside src/, and carry no message ids of their own; they are omitted.) -/
structure Artifact where
  dump_file_id : Nat
  messages : List ZMessage
deriving DecidableEq

/-- A direct-pair channel record from direct_id_to_direct_map: its "uids"
member list. -/
structure DirectChannel where
  uids : List String
deriving DecidableEq

/-- A discussion channel record from dsc_id_to_dsc_map: its parent channel
reference "prid" and its title "fname". -/
structure DscChannel where
  prid : String
  fname : String
deriving DecidableEq

/-- A raw Rocket.Chat message record, with the fields the conversion
pipeline reads.  `u_id` is message["u"]["_id"]; `ts` is the already-decoded
int(message["ts"].timestamp()); `rid` is message.get("rid") (absent for some
livechat messages); `t` is message.get("t"), the event-type tag; `mentions`
is the list of mention ids message.get("mentions", []); `reactions` is the
reaction dict, as a list of (react_code, usernames) entries. -/
structure RCMessage where
  u_id : String
  msg : String
  ts : Int
  rid : Option String
  t : Option String
  mentions : List String
  reactions : List (String × List String)
deriving DecidableEq

/-- A raw Rocket.Chat channel record with the fields
categorize_channels_and_map_with_id reads. -/
structure RCChannel where
  chid : String
  t : String
  prid : Option String
  teamMain : Option Bool
  teamId : Option String
deriving DecidableEq

/-- The lookup tables threaded positionally through process_messages:
username_to_user_id_map, user_id_to_recipient_id, stream_id_to_recipient_id,
direct_id_to_direct_map and dsc_id_to_dsc_map.  All are Python dicts, so a
lookup may fail. -/
structure ConvCtx where
  username_to_user_id_map : String → Option String
  user_id_to_recipient_id : Nat → Option Nat
  stream_id_to_recipient_id : Nat → Option Nat
  direct_id_to_direct_map : String → Option DirectChannel
  dsc_id_to_dsc_map : String → Option DscChannel

/-! ## Variant A: zerver/data_import/rocketchat.py -/

namespace Rocketchat

/-- fix_mentions from process_raw_message_batch: for every mentioned user,
literally replace "@" + short_name by "@**" + full_name + "**"; then replace
"@all" and "@here" by "@**all**".  The user_handler.get_user lookups are
modelled by a total function from target user id to the registered record
(UserHandler itself lives in zerver/data_import/user_handler.py, outside
src/; spec section 4.4 says get returns the registered record). -/
def fix_mentions (user_handler : Nat → UserInfo) (content : String)
    (mention_user_ids : List Nat) : String :=
  let content := mention_user_ids.foldl
    (fun content user_id =>
      let user := user_handler user_id
      pyReplace content ("@" ++ user.short_name) ("@**" ++ user.full_name ++ "**"))
    content
  let content := pyReplace content "@all" "@**all**"
  pyReplace content "@here" "@**all**"

/-- build_reactions: for each reaction entry, keep it only if the emoji name
is a known Unicode emoji (name_to_codepoint, passed as `ntc`), drawing a
fresh id from the "reaction" counter for each kept reaction. -/
def build_reactions (ntc : String → Option String) (seq : SeqTab)
    (reactions : List RCReaction) (message_id : Nat) : List ZReaction × SeqTab :=
  match reactions with
  | [] => ([], seq)
  | reaction :: rest =>
    match ntc reaction.name with
    | some emoji_code =>
      let s := NEXT_ID seq "reaction"
      let out := build_reactions ntc s.2 rest message_id
      (⟨s.1, emoji_code, reaction.name, message_id, reaction.user_id⟩ :: out.1, out.2)
    | none => build_reactions ntc seq rest message_id

/-- The per-message loop of process_raw_message_batch: draw a message id from
the "message" counter, rewrite mentions, drop the message if the rewritten
content exceeds 10000 characters, otherwise emit the zerver_message record
and its reactions. -/
def processLoop (user_handler : Nat → UserInfo) (ntc : String → Option String)
    (seq : SeqTab) : List RawMessage → List ZMessage × List ZReaction × SeqTab
  | [] => ([], [], seq)
  | raw :: rest =>
    let s := NEXT_ID seq "message"
    let content := fix_mentions user_handler raw.content raw.mention_user_ids
    if 10000 < content.length then
      processLoop user_handler ntc s.2 rest
    else
      let br := build_reactions ntc s.2 raw.reactions s.1
      let out := processLoop user_handler ntc br.2 rest
      (⟨s.1, raw.sender_id, raw.recipient_id, content, raw.topic_name, raw.date_sent⟩ :: out.1,
       br.1 ++ out.2.1,
       out.2.2)

/-- process_raw_message_batch: run the per-message loop over one chunk, then
draw the artifact number from the "dump_file_id" + str(realm_id) counter and
serialize the chunk. -/
def process_raw_message_batch (user_handler : Nat → UserInfo)
    (ntc : String → Option String) (realm_id : Nat) (seq : SeqTab)
    (raw_messages : List RawMessage) : Artifact × List ZReaction × SeqTab :=
  let out := processLoop user_handler ntc seq raw_messages
  let d := NEXT_ID out.2.2 ("dump_file_id" ++ toString realm_id)
  (⟨d.1, out.1⟩, out.2.1, d.2)

/-- The inner loop of list_reactions over one react_code's usernames: each
username is resolved through username_to_user_id_map (KeyError on an unknown
username) and then through the user id mapper. -/
def reactUsers (ctx : ConvCtx) (umap : IdMapper) (emoji_name : String) :
    List String → Option (List RCReaction × IdMapper)
  | [] => some ([], umap)
  | username :: rest =>
    match ctx.username_to_user_id_map username with
    | none => none
    | some rc_user_id =>
      let g := umap.get rc_user_id
      match reactUsers ctx g.2 emoji_name rest with
      | none => none
      | some (rs, umap') => some (⟨emoji_name, g.1⟩ :: rs, umap')

/-- list_reactions from process_messages: for each react_code entry, the
emoji name is react_code.split(":")[1] (IndexError when there is no colon)
and each reacting username is resolved to a target user id. -/
def list_reactions (ctx : ConvCtx) (umap : IdMapper) :
    List (String × List String) → Option (List RCReaction × IdMapper)
  | [] => some ([], umap)
  | (react_code, usernames) :: rest =>
    match splitColonSecond react_code with
    | none => none
    | some emoji_name =>
      match reactUsers ctx umap emoji_name usernames with
      | none => none
      | some (rs, umap') =>
        match list_reactions ctx umap' rest with
        | none => none
        | some (rs', umap'') => some (rs ++ rs', umap'')

/-- The mention-resolution loop of message_to_dict: skip the "all" and
"here" pseudo-mentions, map every other mention id through the user id
mapper, collecting the ids as a set (duplicates collapse). -/
def resolveMentions (umap : IdMapper) : List String → List Nat × IdMapper
  | [] => ([], umap)
  | mention_id :: rest =>
    if mention_id = "all" ∨ mention_id = "here" then resolveMentions umap rest
    else
      let g := umap.get mention_id
      let out := resolveMentions g.2 rest
      (if out.1.contains g.1 then out.1 else g.1 :: out.1, out.2)

/-- message_to_dict from process_messages: resolve the sender, extract the
reactions, resolve the recipient and topic by the direct / discussion / room
three-way branch, then resolve the mentions.  Dict and list accesses that
would raise in Python yield none. -/
def message_to_dict (ctx : ConvCtx) (is_pm_data : Bool) (umap smap : IdMapper)
    (message : RCMessage) : Option (RawMessage × IdMapper × IdMapper) :=
  let s := umap.get message.u_id
  match list_reactions ctx s.2 message.reactions with
  | none => none
  | some (reactions, umap1) =>
    match message.rid with
    | none => none
    | some rid =>
      let branch : Option (Nat × String × IdMapper × IdMapper) :=
        if is_pm_data then
          match ctx.direct_id_to_direct_map rid with
          | none => none
          | some dc =>
            match dc.uids.get? 0 with
            | none => none
            | some m0 =>
              if message.u_id = m0 then
                match dc.uids.get? 1 with
                | none => none
                | some m1 =>
                  let g := umap1.get m1
                  match ctx.user_id_to_recipient_id g.1 with
                  | none => none
                  | some recip => some (recip, "", g.2, smap)
              else
                let g := umap1.get m0
                match ctx.user_id_to_recipient_id g.1 with
                | none => none
                | some recip => some (recip, "", g.2, smap)
        else
          match ctx.dsc_id_to_dsc_map rid with
          | some dsc_channel =>
            let g := smap.get dsc_channel.prid
            match ctx.stream_id_to_recipient_id g.1 with
            | none => none
            | some recip =>
              some (recip, "(Discussion) " ++ dsc_channel.fname, umap1, g.2)
          | none =>
            let g := smap.get rid
            match ctx.stream_id_to_recipient_id g.1 with
            | none => none
            | some recip => some (recip, "Imported from Rocket.Chat", umap1, g.2)
      match branch with
      | none => none
      | some (recipient_id, topic_name, umap2, smap') =>
        let mout := resolveMentions umap2 message.mentions
        some (⟨s.1, message.msg, message.ts, reactions, recipient_id, topic_name, mout.1⟩,
              mout.2, smap')

/-- The raw-message building pass of process_messages: skip every message
carrying an event-type tag t, convert the rest with message_to_dict. -/
def convertRaws (ctx : ConvCtx) (is_pm_data : Bool) (umap smap : IdMapper) :
    List RCMessage → Option (List RawMessage × IdMapper × IdMapper)
  | [] => some ([], umap, smap)
  | message :: rest =>
    match message.t with
    | some _ => convertRaws ctx is_pm_data umap smap rest
    | none =>
      match message_to_dict ctx is_pm_data umap smap message with
      | none => none
      | some (raw, umap', smap') =>
        match convertRaws ctx is_pm_data umap' smap' rest with
        | none => none
        | some (raws, umap'', smap'') => some (raw :: raws, umap'', smap'')

/-- Modelled from the spec: process_list_in_batches lives in
zerver/lib/utils.py, outside src/.  Spec section 4.8: the converted message
sequence is processed in fixed-size contiguous chunks (default 1000); chunks
never span a partial record.  The fuel (instantiated with the list's length,
an upper bound on the number of chunks when the chunk size is positive)
makes the recursion structural. -/
def chunksOfFuel {α : Type} (n : Nat) : Nat → List α → List (List α)
  | _, [] => []
  | 0, _ => []
  | fuel + 1, l => l.take n :: chunksOfFuel n fuel (l.drop n)

/-- Modelled from the spec (section 4.8): split a list into contiguous chunks
of size n, the last chunk possibly shorter. -/
def chunksOf {α : Type} (n : Nat) (l : List α) : List (List α) :=
  chunksOfFuel n l.length l

/-- Batch emission: apply process_raw_message_batch to each chunk in order,
threading the counters and accumulating artifacts and reactions. -/
def emitBatches (user_handler : Nat → UserInfo) (ntc : String → Option String)
    (realm_id : Nat) (seq : SeqTab) : List (List RawMessage) → List Artifact × List ZReaction × SeqTab
  | [] => ([], [], seq)
  | chunk :: rest =>
    let b := process_raw_message_batch user_handler ntc realm_id seq chunk
    let out := emitBatches user_handler ntc realm_id b.2.2 rest
    (b.1 :: out.1, b.2.1 ++ out.2.1, out.2.2)

/-- process_messages: build the raw-message list (skipping event-tagged
messages), then process it in chunks of 1000 through
process_raw_message_batch. -/
def process_messages (ctx : ConvCtx) (is_pm_data : Bool)
    (user_handler : Nat → UserInfo) (ntc : String → Option String)
    (realm_id : Nat) (umap smap : IdMapper) (seq : SeqTab)
    (messages : List RCMessage) :
    Option (List Artifact × List ZReaction × IdMapper × IdMapper × SeqTab) :=
  match convertRaws ctx is_pm_data umap smap messages with
  | none => none
  | some (raw_messages, umap', smap') =>
    let out := emitBatches user_handler ntc realm_id seq (chunksOf 1000 raw_messages)
    some (out.1, out.2.1, umap', smap', out.2.2)

/-- separate_channel_and_private_messages: messages with no channel
reference (rid absent or empty, both falsy in Python) are dropped; messages
whose rid is a direct channel go to private_messages, the rest to
channel_messages. -/
def separate_channel_and_private_messages
    (direct_id_to_direct_map : String → Option DirectChannel) :
    List RCMessage → List RCMessage × List RCMessage
  | [] => ([], [])
  | message :: rest =>
    let out := separate_channel_and_private_messages direct_id_to_direct_map rest
    match message.rid with
    | none => out
    | some rid =>
      if rid = "" then out
      else if (direct_id_to_direct_map rid).isSome then (out.1, message :: out.2)
      else (message :: out.1, out.2)

/-- The truthiness test `if channel.get("prid")`: a discussion channel is one
whose prid is present and non-empty. -/
def isDsc (channel : RCChannel) : Bool :=
  match channel.prid with
  | some p => p ≠ ""
  | none => false

/-- An association-list channel index: newest insertion first, lookup finds
the newest entry, matching Python dict assignment. -/
abbrev ChannelIndex := List (String × RCChannel)

/-- The loop of categorize_channels_and_map_with_id with accumulators for the
four indexes (room, team, discussion, direct).  A teamMain channel with no
teamId would raise KeyError, so the result is Option-valued. -/
def categorizeAux (rooms teams dscs directs : ChannelIndex) :
    List RCChannel → Option (ChannelIndex × ChannelIndex × ChannelIndex × ChannelIndex)
  | [] => some (rooms, teams, dscs, directs)
  | channel :: rest =>
    if isDsc channel then
      categorizeAux rooms teams ((channel.chid, channel) :: dscs) directs rest
    else if channel.t = "d" then
      categorizeAux rooms teams dscs ((channel.chid, channel) :: directs) rest
    else if channel.teamMain = some true then
      match channel.teamId with
      | none => none
      | some tid =>
        categorizeAux ((channel.chid, channel) :: rooms) ((tid, channel) :: teams) dscs directs rest
    else
      categorizeAux ((channel.chid, channel) :: rooms) teams dscs directs rest

/-- categorize_channels_and_map_with_id: classify every raw channel record
into the discussion, direct or room index (in that precedence order),
additionally recording a team association for a team's main channel. -/
def categorize_channels_and_map_with_id (channel_data : List RCChannel) :
    Option (ChannelIndex × ChannelIndex × ChannelIndex × ChannelIndex) :=
  categorizeAux [] [] [] [] channel_data

end Rocketchat

/-! ## Variant B: zerver/data_import/rocketchat1.py -/

namespace Rocketchat1

/-- message_to_dict from rocketchat1.py's process_messages: same structure as
the rocketchat.py variant, but reaction extraction is commented out
(reactions is always the empty list) and the direct-message and room topic
placeholders differ ("Imported from rocketchat" and
"Main channel content (imported from rocketchat)"). -/
def message_to_dict (ctx : ConvCtx) (is_pm_data : Bool) (umap smap : IdMapper)
    (message : RCMessage) : Option (RawMessage × IdMapper × IdMapper) :=
  let s := umap.get message.u_id
  let reactions : List RCReaction := []
  match message.rid with
  | none => none
  | some rid =>
    let branch : Option (Nat × String × IdMapper × IdMapper) :=
      if is_pm_data then
        match ctx.direct_id_to_direct_map rid with
        | none => none
        | some dc =>
          match dc.uids.get? 0 with
          | none => none
          | some m0 =>
            if message.u_id = m0 then
              match dc.uids.get? 1 with
              | none => none
              | some m1 =>
                let g := (s.2).get m1
                match ctx.user_id_to_recipient_id g.1 with
                | none => none
                | some recip => some (recip, "Imported from rocketchat", g.2, smap)
            else
              let g := (s.2).get m0
              match ctx.user_id_to_recipient_id g.1 with
              | none => none
              | some recip => some (recip, "Imported from rocketchat", g.2, smap)
      else
        match ctx.dsc_id_to_dsc_map rid with
        | some dsc_channel =>
          let g := smap.get dsc_channel.prid
          match ctx.stream_id_to_recipient_id g.1 with
          | none => none
          | some recip =>
            some (recip, "(Discussion) " ++ dsc_channel.fname, s.2, g.2)
        | none =>
          let g := smap.get rid
          match ctx.stream_id_to_recipient_id g.1 with
          | none => none
          | some recip =>
            some (recip, "Main channel content (imported from rocketchat)", s.2, g.2)
    match branch with
    | none => none
    | some (recipient_id, topic_name, umap2, smap') =>
      let mout := Rocketchat.resolveMentions umap2 message.mentions
      some (⟨s.1, message.msg, message.ts, reactions, recipient_id, topic_name, mout.1⟩,
            mout.2, smap')

/-- separate_channel_and_private_messages from rocketchat1.py: no skip for
messages without a channel reference, so a message with no rid raises
KeyError (modelled as none). -/
def separate_channel_and_private_messages
    (direct_id_to_direct_map : String → Option DirectChannel) :
    List RCMessage → Option (List RCMessage × List RCMessage)
  | [] => some ([], [])
  | message :: rest =>
    match message.rid with
    | none => none
    | some rid =>
      match separate_channel_and_private_messages direct_id_to_direct_map rest with
      | none => none
      | some out =>
        if (direct_id_to_direct_map rid).isSome then some (out.1, message :: out.2)
        else some (message :: out.1, out.2)

end Rocketchat1

/-! ## Specification helpers -/

/-- The per-message keep decision of process_raw_message_batch: a raw message
survives exactly when its rewritten content is at most 10000 characters. -/
def keepB (user_handler : Nat → UserInfo) (raw : RawMessage) : Bool :=
  decide ((Rocketchat.fix_mentions user_handler raw.content raw.mention_user_ids).length ≤ 10000)

/-- The message ids the batch loop hands to the surviving messages: position
i of the input gets id n + i, and only positions passing the keep decision
appear. -/
def keptIds (keep : RawMessage → Bool) (n : Nat) : List RawMessage → List Nat
  | [] => []
  | r :: rest => if keep r then n :: keptIds keep (n + 1) rest else keptIds keep (n + 1) rest

/-! ## Helper lemmas: counters -/

theorem NEXT_ID_fst (seq : SeqTab) (name : String) : (NEXT_ID seq name).1 = seq name := rfl

theorem NEXT_ID_snd_same (seq : SeqTab) (name : String) :
    (NEXT_ID seq name).2 name = seq name + 1 := by
  simp [NEXT_ID]

theorem NEXT_ID_snd_ne (seq : SeqTab) {name name' : String} (h : name' ≠ name) :
    (NEXT_ID seq name).2 name' = seq name' := by
  simp [NEXT_ID, h]

theorem dump_name_ne (s : String) : "message" ≠ "dump_file_id" ++ s := by
  intro h
  have h2 := congrArg String.length h
  rw [String.length_append] at h2
  have h3 : "message".length = 7 := rfl
  have h4 : "dump_file_id".length = 12 := rfl
  omega

theorem reaction_name_ne : "message" ≠ "reaction" := by decide

/-! ## Helper lemmas: association-list lookup -/

theorem lookup_mem {α β : Type} [BEq α] [LawfulBEq α] {l : List (α × β)} {a : α} {b : β}
    (h : List.lookup a l = some b) : (a, b) ∈ l := by
  induction l with
  | nil => simp [List.lookup] at h
  | cons p rest ih =>
    cases p with
    | mk k v =>
      rw [List.lookup] at h
      by_cases hab : a = k
      · subst hab
        simp at h
        subst h
        exact List.mem_cons_self _ _
      · rw [beq_eq_false_iff_ne.2 hab] at h
        simp at h
        exact List.mem_cons_of_mem _ (ih h)

/-! ## Helper lemmas: IdMapper -/

theorem IdMapper.get_of_lookup {m : IdMapper} {k : String} {v : Nat}
    (h : m.map.lookup k = some v) : m.get k = (v, m) := by
  simp [IdMapper.get, h]

theorem IdMapper.get_of_fresh {m : IdMapper} {k : String}
    (h : m.map.lookup k = none) :
    m.get k = (m.next, ⟨(k, m.next) :: m.map, m.next + 1⟩) := by
  simp [IdMapper.get, h]

theorem IdMapper.lookup_get_self (m : IdMapper) (k : String) :
    ((m.get k).2).map.lookup k = some (m.get k).1 := by
  cases h : m.map.lookup k with
  | some v => simp [IdMapper.get, h]
  | none => simp [IdMapper.get, h, List.lookup]

theorem IdMapper.lookup_get_mono {m : IdMapper} {k : String} {v : Nat} (k' : String)
    (h : m.map.lookup k = some v) : ((m.get k').2).map.lookup k = some v := by
  cases h' : m.map.lookup k' with
  | some w => simp [IdMapper.get, h', h]
  | none =>
    have hne : k ≠ k' := by
      intro e
      subst e
      rw [h] at h'
      cases h'
    simp [IdMapper.get, h', List.lookup, beq_eq_false_iff_ne.2 hne, h]

/-- The reachable-state invariant of an id mapper: every recorded value is
below the next value to hand out, and no value is recorded twice. -/
def IdMapper.Inv (m : IdMapper) : Prop :=
  (∀ p ∈ m.map, p.2 < m.next) ∧ (m.map.map Prod.snd).Nodup

theorem IdMapper.Inv.of_new (floor : Nat) : (IdMapper.new floor).Inv := by
  constructor
  · intro p hp
    simp [IdMapper.new] at hp
  · simp [IdMapper.new]

theorem IdMapper.Inv.get {m : IdMapper} (h : m.Inv) (k : String) : ((m.get k).2).Inv := by
  cases hl : m.map.lookup k with
  | some v => simpa [IdMapper.get, hl] using h
  | none =>
    rw [IdMapper.get_of_fresh hl]
    dsimp only
    constructor
    · intro p hp
      dsimp only at hp ⊢
      rcases List.mem_cons.1 hp with he | hm
      · subst he
        dsimp only
        omega
      · have := h.1 p hm
        omega
    · dsimp only
      simp only [List.map_cons, List.nodup_cons]
      refine ⟨?_, h.2⟩
      intro hmem
      rcases List.mem_map.1 hmem with ⟨p, hp, hv⟩
      have := h.1 p hp
      omega

theorem IdMapper.Inv.runKeys {m : IdMapper} (h : m.Inv) (ks : List String) :
    (m.runKeys ks).Inv := by
  induction ks generalizing m with
  | nil => exact h
  | cons k rest ih => exact ih (h.get k)

theorem IdMapper.lookup_lt {m : IdMapper} (h : m.Inv) {k : String} {v : Nat}
    (hk : m.map.lookup k = some v) : v < m.next :=
  h.1 _ (lookup_mem hk)

theorem IdMapper.lookup_inj {m : IdMapper} (h : m.Inv) {k1 k2 : String} {v1 v2 : Nat}
    (h1 : m.map.lookup k1 = some v1) (h2 : m.map.lookup k2 = some v2)
    (hne : k1 ≠ k2) : v1 ≠ v2 := by
  intro e
  subst e
  have m1 := lookup_mem h1
  have m2 := lookup_mem h2
  have := List.inj_on_of_nodup_map h.2 m1 m2 rfl
  exact hne (congrArg Prod.fst this)

theorem IdMapper.get_get_ne {m : IdMapper} (hInv : m.Inv) {k1 k2 : String}
    (hne : k2 ≠ k1) : (((m.get k1).2).get k2).1 ≠ (m.get k1).1 := by
  have h1 : ((m.get k1).2).map.lookup k1 = some (m.get k1).1 := m.lookup_get_self k1
  have hInv1 : ((m.get k1).2).Inv := hInv.get k1
  cases h2 : ((m.get k1).2).map.lookup k2 with
  | some v2 =>
    rw [IdMapper.get_of_lookup h2]
    exact IdMapper.lookup_inj hInv1 h2 h1 hne
  | none =>
    rw [IdMapper.get_of_fresh h2]
    have := IdMapper.lookup_lt hInv1 h1
    dsimp only
    omega

/-! ## Helper lemmas: string replacement -/

theorem replaceAllFuel_not_mem {p : Char} {ps rep : List Char} :
    ∀ (fuel : Nat) (l : List Char), p ∉ l → replaceAllFuel (p :: ps) rep fuel l = l := by
  intro fuel
  induction fuel with
  | zero =>
    intro l _
    cases l <;> rfl
  | succ fuel ih =>
    intro l hl
    cases l with
    | nil => rfl
    | cons c rest =>
      have hpc : p ≠ c := by
        intro e
        exact hl (e ▸ List.mem_cons_self _ _)
      have hpref : List.isPrefixOf (p :: ps) (c :: rest) = false := by
        simp [List.isPrefixOf, beq_eq_false_iff_ne.2 hpc]
      rw [replaceAllFuel, hpref]
      simp only [Bool.and_false, Bool.false_eq_true, if_false]
      rw [ih rest (fun hm => hl (List.mem_cons_of_mem _ hm))]

theorem replaceAll_not_mem {p : Char} {ps rep l : List Char} (h : p ∉ l) :
    replaceAll (p :: ps) rep l = l :=
  replaceAllFuel_not_mem _ _ h

theorem pyReplace_not_mem {s pat rep : String} {p : Char} {ps : List Char}
    (hp : pat.data = p :: ps) (h : p ∉ s.data) : pyReplace s pat rep = s := by
  show String.mk (replaceAll pat.data rep.data s.data) = s
  rw [hp, replaceAll_not_mem h]

theorem fix_mentions_no_at (uh : Nat → UserInfo) (content : String)
    (h : '@' ∉ content.data) : Rocketchat.fix_mentions uh content [] = content := by
  have hall : ("@all" : String).data = '@' :: ['a', 'l', 'l'] := rfl
  have hhere : ("@here" : String).data = '@' :: ['h', 'e', 'r', 'e'] := rfl
  show pyReplace (pyReplace content "@all" "@**all**") "@here" "@**all**" = content
  rw [pyReplace_not_mem hall h, pyReplace_not_mem hhere h]

/-! ## Helper lemmas: the keep decision and kept ids -/

theorem keepB_eq_false {uh : Nat → UserInfo} {raw : RawMessage}
    (h : 10000 < (Rocketchat.fix_mentions uh raw.content raw.mention_user_ids).length) :
    keepB uh raw = false := by
  simp [keepB]
  omega

theorem keepB_eq_true {uh : Nat → UserInfo} {raw : RawMessage}
    (h : ¬ 10000 < (Rocketchat.fix_mentions uh raw.content raw.mention_user_ids).length) :
    keepB uh raw = true := by
  simp [keepB]
  omega

theorem keptIds_all (keep : RawMessage → Bool) :
    ∀ (raws : List RawMessage) (n : Nat), (∀ r ∈ raws, keep r = true) →
      keptIds keep n raws = List.range' n raws.length := by
  intro raws
  induction raws with
  | nil => intro n _; rfl
  | cons r rest ih =>
    intro n hall
    rw [keptIds, hall r (List.mem_cons_self _ _)]
    simp only [if_true, List.length_cons]
    rw [List.range'_succ, ih (n + 1) (fun x hx => hall x (List.mem_cons_of_mem _ hx))]

theorem keptIds_append (keep : RawMessage → Bool) :
    ∀ (xs ys : List RawMessage) (n : Nat),
      keptIds keep n (xs ++ ys) = keptIds keep n xs ++ keptIds keep (n + xs.length) ys := by
  intro xs
  induction xs with
  | nil => intro ys n; simp [keptIds]
  | cons x rest ih =>
    intro ys n
    have harith : n + 1 + rest.length = n + (rest.length + 1) := by omega
    cases hx : keep x with
    | true =>
      rw [List.cons_append, keptIds, hx, keptIds, hx]
      simp only [if_true, List.cons_append, List.length_cons]
      rw [ih ys (n + 1), harith]
    | false =>
      rw [List.cons_append, keptIds, hx, keptIds, hx]
      simp only [Bool.false_eq_true, if_false, List.length_cons]
      rw [ih ys (n + 1), harith]

theorem keptIds_ge (keep : RawMessage → Bool) :
    ∀ (raws : List RawMessage) (n x : Nat), x ∈ keptIds keep n raws → n ≤ x := by
  intro raws
  induction raws with
  | nil => intro n x hx; simp [keptIds] at hx
  | cons r rest ih =>
    intro n x hx
    rw [keptIds] at hx
    cases hr : keep r with
    | true =>
      rw [hr] at hx
      simp only [if_true] at hx
      rcases List.mem_cons.1 hx with he | hm
      · omega
      · have := ih (n + 1) x hm
        omega
    | false =>
      rw [hr] at hx
      simp only [Bool.false_eq_true, if_false] at hx
      have := ih (n + 1) x hx
      omega

theorem keptIds_not_mem (keep : RawMessage → Bool) :
    ∀ (raws : List RawMessage) (n i : Nat) (h : i < raws.length),
      keep (raws.get ⟨i, h⟩) = false → n + i ∉ keptIds keep n raws := by
  intro raws
  induction raws with
  | nil => intro n i h; simp at h
  | cons r rest ih =>
    intro n i h hdrop
    cases i with
    | zero =>
      have hr : keep r = false := hdrop
      rw [keptIds, hr]
      simp only [Bool.false_eq_true, if_false]
      intro hmem
      have := keptIds_ge keep rest (n + 1) (n + 0) hmem
      omega
    | succ j =>
      have hj : j < rest.length := by
        simp at h
        omega
      have hdrop' : keep (rest.get ⟨j, hj⟩) = false := hdrop
      rw [keptIds]
      cases hr : keep r with
      | true =>
        simp only [if_true]
        intro hmem
        rcases List.mem_cons.1 hmem with he | hm
        · omega
        · have harith : n + (j + 1) = (n + 1) + j := by omega
          rw [harith] at hm
          exact ih (n + 1) j hj hdrop' hm
      | false =>
        simp only [Bool.false_eq_true, if_false]
        intro hm
        have harith : n + (j + 1) = (n + 1) + j := by omega
        rw [harith] at hm
        exact ih (n + 1) j hj hdrop' hm

theorem keptIds_length_base (keep : RawMessage → Bool) :
    ∀ (raws : List RawMessage) (n m : Nat),
      (keptIds keep n raws).length = (keptIds keep m raws).length := by
  intro raws
  induction raws with
  | nil => intro n m; rfl
  | cons r rest ih =>
    intro n m
    rw [keptIds, keptIds]
    cases hr : keep r with
    | true => simp only [if_true, List.length_cons, ih (n + 1) (m + 1)]
    | false => simp only [Bool.false_eq_true, if_false, ih (n + 1) (m + 1)]

/-! ## Helper lemmas: the batch loop -/

namespace Rocketchat

theorem build_reactions_seq (ntc : String → Option String) :
    ∀ (reactions : List RCReaction) (seq : SeqTab) (mid : Nat) (name : String),
      name ≠ "reaction" → (build_reactions ntc seq reactions mid).2 name = seq name := by
  intro reactions
  induction reactions with
  | nil => intro seq mid name _; rfl
  | cons r rest ih =>
    intro seq mid name hname
    rw [build_reactions]
    cases hr : ntc r.name with
    | some code =>
      dsimp only
      rw [ih _ mid name hname, NEXT_ID_snd_ne _ hname]
    | none => exact ih seq mid name hname

theorem build_reactions_mid (ntc : String → Option String) :
    ∀ (reactions : List RCReaction) (seq : SeqTab) (mid : Nat),
      ∀ z ∈ (build_reactions ntc seq reactions mid).1, z.message_id = mid := by
  intro reactions
  induction reactions with
  | nil => intro seq mid z hz; simp [build_reactions] at hz
  | cons r rest ih =>
    intro seq mid z hz
    rw [build_reactions] at hz
    cases hr : ntc r.name with
    | some code =>
      rw [hr] at hz
      dsimp only at hz
      rcases List.mem_cons.1 hz with he | hm
      · subst he; rfl
      · exact ih _ mid z hm
    | none =>
      rw [hr] at hz
      exact ih seq mid z hz

theorem processLoop_ids (uh : Nat → UserInfo) (ntc : String → Option String) :
    ∀ (raws : List RawMessage) (seq : SeqTab),
      (processLoop uh ntc seq raws).1.map (fun z => z.id)
        = keptIds (keepB uh) (seq "message") raws := by
  intro raws
  induction raws with
  | nil => intro seq; rfl
  | cons raw rest ih =>
    intro seq
    rw [processLoop, keptIds]
    by_cases hk : 10000 < (fix_mentions uh raw.content raw.mention_user_ids).length
    · rw [if_pos hk, keepB_eq_false hk]
      simp only [Bool.false_eq_true, if_false]
      rw [ih, NEXT_ID_snd_same]
    · rw [if_neg hk, keepB_eq_true hk]
      simp only [if_true, List.map_cons]
      rw [ih]
      rw [build_reactions_seq ntc _ _ _ _ reaction_name_ne, NEXT_ID_snd_same, NEXT_ID_fst]

theorem processLoop_contents (uh : Nat → UserInfo) (ntc : String → Option String) :
    ∀ (raws : List RawMessage) (seq : SeqTab),
      (processLoop uh ntc seq raws).1.map (fun z => z.content)
        = (raws.map (fun r => fix_mentions uh r.content r.mention_user_ids)).filter
            (fun c => c.length ≤ 10000) := by
  intro raws
  induction raws with
  | nil => intro seq; rfl
  | cons raw rest ih =>
    intro seq
    rw [processLoop, List.map_cons, List.filter]
    by_cases hk : 10000 < (fix_mentions uh raw.content raw.mention_user_ids).length
    · have hd : decide ((fix_mentions uh raw.content raw.mention_user_ids).length ≤ 10000) = false := by
        simp
        omega
      rw [if_pos hk, hd, ih]
    · have hd : decide ((fix_mentions uh raw.content raw.mention_user_ids).length ≤ 10000) = true := by
        simp
        omega
      rw [if_neg hk, hd]
      simp only [List.map_cons]
      rw [ih]

theorem processLoop_seq (uh : Nat → UserInfo) (ntc : String → Option String) :
    ∀ (raws : List RawMessage) (seq : SeqTab),
      (processLoop uh ntc seq raws).2.2 "message" = seq "message" + raws.length := by
  intro raws
  induction raws with
  | nil => intro seq; rfl
  | cons raw rest ih =>
    intro seq
    rw [processLoop]
    by_cases hk : 10000 < (fix_mentions uh raw.content raw.mention_user_ids).length
    · rw [if_pos hk, ih, NEXT_ID_snd_same]
      simp only [List.length_cons]
      omega
    · rw [if_neg hk]
      dsimp only
      rw [ih, build_reactions_seq ntc _ _ _ _ reaction_name_ne, NEXT_ID_snd_same]
      simp only [List.length_cons]
      omega

theorem processLoop_len (uh : Nat → UserInfo) (ntc : String → Option String)
    (raws : List RawMessage) (seq : SeqTab) :
    (processLoop uh ntc seq raws).1.length
      = (keptIds (keepB uh) (seq "message") raws).length := by
  have h := processLoop_ids uh ntc raws seq
  have := congrArg List.length h
  simpa using this

theorem processLoop_reacts (uh : Nat → UserInfo) (ntc : String → Option String) :
    ∀ (raws : List RawMessage) (seq : SeqTab),
      ∀ z ∈ (processLoop uh ntc seq raws).2.1,
        z.message_id ∈ (processLoop uh ntc seq raws).1.map (fun m => m.id) := by
  intro raws
  induction raws with
  | nil => intro seq z hz; simp [processLoop] at hz
  | cons raw rest ih =>
    intro seq z hz
    rw [processLoop] at hz ⊢
    by_cases hk : 10000 < (fix_mentions uh raw.content raw.mention_user_ids).length
    · rw [if_pos hk] at hz ⊢
      exact ih _ z hz
    · rw [if_neg hk] at hz ⊢
      dsimp only at hz ⊢
      rcases List.mem_append.1 hz with hbr | hrest
      · have := build_reactions_mid ntc raw.reactions _ _ z hbr
        rw [this]
        exact List.mem_cons_self _ _
      · exact List.mem_cons_of_mem _ (ih _ z hrest)

end Rocketchat

/-! ## Helper lemmas: chunking and emission -/

namespace Rocketchat

theorem chunksOfFuel_nil {α : Type} (n : Nat) : ∀ fuel, chunksOfFuel n fuel ([] : List α) = [] := by
  intro fuel
  cases fuel <;> rfl

theorem chunksOfFuel_congr {α : Type} {n : Nat} (hn : 0 < n) :
    ∀ (f1 f2 : Nat) (l : List α), l.length ≤ f1 → l.length ≤ f2 →
      chunksOfFuel n f1 l = chunksOfFuel n f2 l := by
  intro f1
  induction f1 with
  | zero =>
    intro f2 l h1 _
    have : l = [] := List.eq_nil_of_length_eq_zero (by omega)
    subst this
    rw [chunksOfFuel_nil, chunksOfFuel_nil]
  | succ a ih =>
    intro f2 l h1 h2
    cases l with
    | nil => rw [chunksOfFuel_nil, chunksOfFuel_nil]
    | cons c rest =>
      cases f2 with
      | zero =>
        simp at h2
      | succ b =>
        rw [chunksOfFuel, chunksOfFuel]
        · have hd : ((c :: rest).drop n).length ≤ a := by
            rw [List.length_drop]
            simp only [List.length_cons] at h1 ⊢
            omega
          have hd2 : ((c :: rest).drop n).length ≤ b := by
            rw [List.length_drop]
            simp only [List.length_cons] at h2 ⊢
            omega
          rw [ih _ _ hd hd2]
        all_goals simp

theorem chunksOf_cons {α : Type} {n : Nat} (hn : 0 < n) (l : List α) (hl : l ≠ []) :
    chunksOf n l = l.take n :: chunksOf n (l.drop n) := by
  rcases List.exists_cons_of_ne_nil hl with ⟨c, rest, rfl⟩
  show chunksOfFuel n (rest.length + 1) (c :: rest) = _
  rw [chunksOfFuel]
  · congr 1
    apply chunksOfFuel_congr hn
    · rw [List.length_drop]
      simp only [List.length_cons]
      omega
    · exact le_rfl
  all_goals simp

theorem chunksOf_flatten {α : Type} {n : Nat} (hn : 0 < n) (l : List α) :
    (chunksOf n l).flatten = l := by
  have key : ∀ (k : Nat) (l : List α), l.length ≤ k → (chunksOf n l).flatten = l := by
    intro k
    induction k with
    | zero =>
      intro l h
      have : l = [] := List.eq_nil_of_length_eq_zero (by omega)
      subst this
      rfl
    | succ k ih =>
      intro l h
      by_cases hl : l = []
      · subst hl; rfl
      · rw [chunksOf_cons hn l hl, List.flatten_cons]
        rw [ih (l.drop n) (by rw [List.length_drop]; omega)]
        exact List.take_append_drop n l
  exact key l.length l le_rfl

theorem emitBatches_spec (uh : Nat → UserInfo) (ntc : String → Option String) (realm_id : Nat) :
    ∀ (chunks : List (List RawMessage)) (seq : SeqTab),
      ((emitBatches uh ntc realm_id seq chunks).1.map
          (fun a => a.messages.map (fun z => z.id))).flatten
        = keptIds (keepB uh) (seq "message") chunks.flatten
      ∧ (emitBatches uh ntc realm_id seq chunks).2.2 "message"
        = seq "message" + chunks.flatten.length := by
  intro chunks
  induction chunks with
  | nil =>
    intro seq
    constructor
    · rfl
    · simp [emitBatches]
  | cons chunk rest ih =>
    intro seq
    have hbatch : (process_raw_message_batch uh ntc realm_id seq chunk).2.2 "message"
        = seq "message" + chunk.length := by
      show (NEXT_ID (processLoop uh ntc seq chunk).2.2
          ("dump_file_id" ++ toString realm_id)).2 "message" = seq "message" + chunk.length
      rw [NEXT_ID_snd_ne _ (dump_name_ne (toString realm_id)), processLoop_seq]
    constructor
    · rw [emitBatches]
      dsimp only
      rw [List.map_cons, List.flatten_cons]
      have hhead : (process_raw_message_batch uh ntc realm_id seq chunk).1.messages.map (fun z => z.id)
          = keptIds (keepB uh) (seq "message") chunk := by
        show (processLoop uh ntc seq chunk).1.map (fun z => z.id) = _
        exact processLoop_ids uh ntc chunk seq
      rw [hhead, (ih _).1, hbatch, List.flatten_cons, keptIds_append]
    · rw [emitBatches]
      dsimp only
      rw [(ih _).2, hbatch, List.flatten_cons]
      simp only [List.length_append]
      omega

theorem emitBatches_sizes (uh : Nat → UserInfo) (ntc : String → Option String) (realm_id : Nat) :
    ∀ (chunks : List (List RawMessage)) (seq : SeqTab),
      (emitBatches uh ntc realm_id seq chunks).1.map (fun a => a.messages.length)
        = chunks.map (fun c => (keptIds (keepB uh) 0 c).length) := by
  intro chunks
  induction chunks with
  | nil => intro seq; rfl
  | cons chunk rest ih =>
    intro seq
    rw [emitBatches]
    dsimp only
    rw [List.map_cons, List.map_cons]
    congr 1
    · show (processLoop uh ntc seq chunk).1.length = _
      rw [processLoop_len]
      exact keptIds_length_base (keepB uh) chunk _ 0
    · exact ih _

theorem convertRaws_filter (ctx : ConvCtx) (is_pm_data : Bool) :
    ∀ (messages : List RCMessage) (umap smap : IdMapper),
      convertRaws ctx is_pm_data umap smap messages
        = convertRaws ctx is_pm_data umap smap (messages.filter (fun m => m.t = none)) := by
  intro messages
  induction messages with
  | nil => intro umap smap; rfl
  | cons message rest ih =>
    intro umap smap
    rw [convertRaws, List.filter]
    cases ht : message.t with
    | some tag =>
      have hd : (decide ((some tag : Option String) = none)) = false := by simp
      rw [hd]
      dsimp only
      exact ih umap smap
    | none =>
      have hd : (decide ((none : Option String) = none)) = true := by simp
      rw [hd]
      dsimp only
      conv_rhs => rw [convertRaws]
      rw [ht]
      cases hm : message_to_dict ctx is_pm_data umap smap message with
      | none => rfl
      | some out =>
        rcases out with ⟨raw, umap', smap'⟩
        dsimp only
        rw [ih umap' smap']

end Rocketchat

/-! ## Helper lemmas: id-mapper bindings survive message_to_dict's side effects -/

namespace Rocketchat

theorem reactUsers_mono {ctx : ConvCtx} {emoji_name : String} :
    ∀ {usernames : List String} {umap : IdMapper} {out : List RCReaction × IdMapper},
      reactUsers ctx umap emoji_name usernames = some out →
      ∀ {k : String} {v : Nat}, umap.map.lookup k = some v → out.2.map.lookup k = some v := by
  intro usernames
  induction usernames with
  | nil =>
    intro umap out h k v hk
    rw [reactUsers] at h
    injection h with h
    subst h
    exact hk
  | cons username rest ih =>
    intro umap out h k v hk
    rw [reactUsers] at h
    cases hn : ctx.username_to_user_id_map username with
    | none => rw [hn] at h; cases h
    | some rc_user_id =>
      rw [hn] at h
      dsimp only at h
      cases hr : reactUsers ctx ((umap.get rc_user_id).2) emoji_name rest with
      | none => rw [hr] at h; cases h
      | some pr =>
        rcases pr with ⟨rs, umap2⟩
        rw [hr] at h
        injection h with h
        subst h
        exact ih hr (IdMapper.lookup_get_mono _ hk)

theorem list_reactions_mono {ctx : ConvCtx} :
    ∀ {entries : List (String × List String)} {umap : IdMapper}
      {out : List RCReaction × IdMapper},
      list_reactions ctx umap entries = some out →
      ∀ {k : String} {v : Nat}, umap.map.lookup k = some v → out.2.map.lookup k = some v := by
  intro entries
  induction entries with
  | nil =>
    intro umap out h k v hk
    rw [list_reactions] at h
    injection h with h
    subst h
    exact hk
  | cons entry rest ih =>
    intro umap out h k v hk
    rcases entry with ⟨react_code, usernames⟩
    rw [list_reactions] at h
    cases hs : splitColonSecond react_code with
    | none => rw [hs] at h; cases h
    | some emoji_name =>
      rw [hs] at h
      dsimp only at h
      cases hu : reactUsers ctx umap emoji_name usernames with
      | none => rw [hu] at h; cases h
      | some pr1 =>
        rcases pr1 with ⟨rs, umap1⟩
        rw [hu] at h
        dsimp only at h
        cases hl : list_reactions ctx umap1 rest with
        | none => rw [hl] at h; cases h
        | some pr2 =>
          rcases pr2 with ⟨rs', umap2⟩
          rw [hl] at h
          injection h with h
          subst h
          exact ih hl (reactUsers_mono hu hk)

end Rocketchat

/-! ## Claim C2: direct-message routing -/

/-- C2: for a direct-pair channel whose member list is exactly [A, B], a
non-event message converted by message_to_dict resolves, when its sender is
A (the first member), to the personal recipient of B, and otherwise
(any other sender, including B) to the personal recipient of A.  The
mapper-state hypotheses say A and B were already assigned ids a and b
(process_users maps every user before any message is processed). -/
theorem claim2_thm (ctx : ConvCtx) (umap smap : IdMapper) (message : RCMessage)
    (rid : String) (dc : DirectChannel) (A B : String) (a b : Nat)
    (raw : RawMessage) (umap' smap' : IdMapper)
    (hrid : message.rid = some rid)
    (hdc : ctx.direct_id_to_direct_map rid = some dc)
    (huids : dc.uids = [A, B])
    (hA : umap.map.lookup A = some a)
    (hB : umap.map.lookup B = some b)
    (hsucc : Rocketchat.message_to_dict ctx true umap smap message = some (raw, umap', smap')) :
    (message.u_id = A → ctx.user_id_to_recipient_id b = some raw.recipient_id)
    ∧ (message.u_id ≠ A → ctx.user_id_to_recipient_id a = some raw.recipient_id) := by
  rw [Rocketchat.message_to_dict] at hsucc
  dsimp only at hsucc
  cases hlr : Rocketchat.list_reactions ctx ((umap.get message.u_id).2) message.reactions with
  | none => rw [hlr] at hsucc; cases hsucc
  | some pr =>
    rcases pr with ⟨reactions, umap1⟩
    rw [hlr, hrid] at hsucc
    dsimp only at hsucc
    rw [if_pos rfl, hdc] at hsucc
    dsimp only at hsucc
    rw [huids] at hsucc
    simp only [List.get?] at hsucc
    have hAm : umap1.map.lookup A = some a :=
      Rocketchat.list_reactions_mono hlr (IdMapper.lookup_get_mono _ hA)
    have hBm : umap1.map.lookup B = some b :=
      Rocketchat.list_reactions_mono hlr (IdMapper.lookup_get_mono _ hB)
    by_cases hu : message.u_id = A
    · rw [if_pos hu] at hsucc
      rw [IdMapper.get_of_lookup hBm] at hsucc
      dsimp only at hsucc
      cases hur : ctx.user_id_to_recipient_id b with
      | none => rw [hur] at hsucc; cases hsucc
      | some recip =>
        rw [hur] at hsucc
        dsimp only at hsucc
        simp only [Option.some.injEq, Prod.mk.injEq] at hsucc
        obtain ⟨hraw, -⟩ := hsucc
        constructor
        · intro _
          rw [← hraw]
        · intro hne
          exact absurd hu hne
    · rw [if_neg hu] at hsucc
      rw [IdMapper.get_of_lookup hAm] at hsucc
      dsimp only at hsucc
      cases hur : ctx.user_id_to_recipient_id a with
      | none => rw [hur] at hsucc; cases hsucc
      | some recip =>
        rw [hur] at hsucc
        dsimp only at hsucc
        simp only [Option.some.injEq, Prod.mk.injEq] at hsucc
        obtain ⟨hraw, -⟩ := hsucc
        constructor
        · intro he
          exact absurd he hu
        · intro _
          rw [← hraw]

/-! ## Claim C3: discussion routing -/

/-- C3: a non-event channel message whose channel is in the discussion index
gets topic "(Discussion) " followed by the discussion's title, and its
recipient is the stream recipient of the parent channel prid (looked up
through the stream id mapper), not of the discussion channel's own id. -/
theorem claim3_thm (ctx : ConvCtx) (umap smap : IdMapper) (message : RCMessage)
    (rid : String) (d : DscChannel) (raw : RawMessage) (umap' smap' : IdMapper)
    (hrid : message.rid = some rid)
    (hdsc : ctx.dsc_id_to_dsc_map rid = some d)
    (hsucc : Rocketchat.message_to_dict ctx false umap smap message = some (raw, umap', smap')) :
    raw.topic_name = "(Discussion) " ++ d.fname
    ∧ ctx.stream_id_to_recipient_id ((smap.get d.prid).1) = some raw.recipient_id := by
  rw [Rocketchat.message_to_dict] at hsucc
  dsimp only at hsucc
  cases hlr : Rocketchat.list_reactions ctx ((umap.get message.u_id).2) message.reactions with
  | none => rw [hlr] at hsucc; cases hsucc
  | some pr =>
    rcases pr with ⟨reactions, umap1⟩
    rw [hlr, hrid] at hsucc
    dsimp only at hsucc
    rw [if_neg Bool.false_ne_true, hdsc] at hsucc
    dsimp only at hsucc
    cases hs : ctx.stream_id_to_recipient_id ((smap.get d.prid).1) with
    | none => rw [hs] at hsucc; cases hsucc
    | some recip =>
      rw [hs] at hsucc
      dsimp only at hsucc
      simp only [Option.some.injEq, Prod.mk.injEq] at hsucc
      obtain ⟨hraw, -⟩ := hsucc
      constructor
      · rw [← hraw]
      · rw [← hraw]

/-! ## Concrete fixtures for witnesses and counterexamples -/

/-- A small conversion context: personal recipients are 1000 + user id,
stream recipients are 2000 + stream id, channel d1 is the direct pair of
users A and B, channel c1 is a discussion under parent p1 titled
"Bug Triage". -/
def ctx0 : ConvCtx :=
  ⟨fun _ => none,
   fun n => some (1000 + n),
   fun n => some (2000 + n),
   fun r => if r = "d1" then some ⟨["A", "B"]⟩ else none,
   fun r => if r = "c1" then some ⟨"p1", "Bug Triage"⟩ else none⟩

/-- A user id mapper that has already assigned A to 0 and B to 1. -/
def umap0 : IdMapper := ⟨[("A", 0), ("B", 1)], 2⟩

/-- A fresh stream id mapper. -/
def smap0 : IdMapper := ⟨[], 0⟩

/-- A direct message from A in the direct channel d1. -/
def msgA : RCMessage := ⟨"A", "hi", 0, some "d1", none, [], []⟩

/-- A channel message from A in the discussion channel c1. -/
def msgC : RCMessage := ⟨"A", "hi", 0, some "c1", none, [], []⟩

/-- What variant A converts msgA to. -/
def rawA : RawMessage := ⟨0, "hi", 0, [], 1001, "", []⟩

/-- What variant A converts msgC to. -/
def rawC : RawMessage := ⟨0, "hi", 0, [], 2000, "(Discussion) Bug Triage", []⟩

/-- The stream mapper state after msgC's conversion assigned p1 the id 0. -/
def smapC : IdMapper := ⟨[("p1", 0)], 1⟩

theorem claim2_witness :
    (Rocketchat.message_to_dict ctx0 true umap0 smap0 msgA = some (rawA, umap0, smap0))
    ∧ (msgA.u_id = "A" → ctx0.user_id_to_recipient_id 1 = some rawA.recipient_id) :=
  ⟨by decide,
   (claim2_thm ctx0 umap0 smap0 msgA "d1" ⟨["A", "B"]⟩ "A" "B" 0 1 rawA umap0 smap0
      (by decide) (by decide) (by decide) (by decide) (by decide) (by decide)).1⟩

theorem claim3_witness :
    (Rocketchat.message_to_dict ctx0 false umap0 smap0 msgC = some (rawC, umap0, smapC))
    ∧ rawC.topic_name = "(Discussion) " ++ "Bug Triage"
    ∧ ctx0.stream_id_to_recipient_id ((smap0.get "p1").1) = some rawC.recipient_id := by
  have h := claim3_thm ctx0 umap0 smap0 msgC "c1" ⟨"p1", "Bug Triage"⟩ rawC umap0 smapC
    (by decide) (by decide) (by decide)
  exact ⟨by decide, h.1, h.2⟩

/-! ## Claim C4: IdMapper injectivity, stability, fresh assignment -/

/-- C4: within one run (any sequence of get calls from a fresh mapper with a
configured floor), sequential gets of two distinct keys return distinct
integers; a repeated get of the same key returns the same integer; a key not
seen before receives the mapper's next integer, and the fresh mapper's next
integer is the configured floor. -/
theorem claim4_thm (floor : Nat) (ks : List String) (k1 k2 : String) (hne : k1 ≠ k2) :
    (((((IdMapper.new floor).runKeys ks).get k1).2.get k2).1
        ≠ (((IdMapper.new floor).runKeys ks).get k1).1)
    ∧ (((((IdMapper.new floor).runKeys ks).get k1).2.get k1).1
        = (((IdMapper.new floor).runKeys ks).get k1).1)
    ∧ (((IdMapper.new floor).runKeys ks).map.lookup k1 = none →
        (((IdMapper.new floor).runKeys ks).get k1).1
          = ((IdMapper.new floor).runKeys ks).next)
    ∧ ((IdMapper.new floor).next = floor) := by
  have hInv : ((IdMapper.new floor).runKeys ks).Inv :=
    (IdMapper.Inv.of_new floor).runKeys ks
  refine ⟨IdMapper.get_get_ne hInv (Ne.symm hne), ?_, ?_, rfl⟩
  · have h := ((IdMapper.new floor).runKeys ks).lookup_get_self k1
    rw [IdMapper.get_of_lookup h]
  · intro hnone
    rw [IdMapper.get_of_fresh hnone]

theorem claim4_witness :
    (("a" : String) ≠ "b")
    ∧ (((((IdMapper.new 3).runKeys ["x", "a"]).get "a").2.get "b").1
        ≠ (((IdMapper.new 3).runKeys ["x", "a"]).get "a").1)
    ∧ ((IdMapper.new 3).next = 3) := by
  have h := claim4_thm 3 ["x", "a"] "a" "b" (by decide)
  exact ⟨by decide, h.1, h.2.2.2⟩

/-! ## Claim C5: mention rewriting -/

/-- The user handler fixture: every id resolves to the user with short
handle "alice" and display name "Alice Smith". -/
def uhAlice : Nat → UserInfo := fun _ => ⟨"alice", "Alice Smith"⟩

/-- C5: fix_mentions performs the literal substring rewrites of the spec's
examples ("@alice" to "@**Alice Smith**", "@all" and "@here" to "@**all**"),
and the rewriting happens before the length ceiling is checked: the batch
loop keeps exactly the messages whose rewritten content has length at most
10000, in order. -/
theorem claim5_thm :
    (Rocketchat.fix_mentions uhAlice "@alice please review" [1]
        = "@**Alice Smith** please review")
    ∧ (Rocketchat.fix_mentions uhAlice "x @all y" [] = "x @**all** y")
    ∧ (Rocketchat.fix_mentions uhAlice "x @here y" [] = "x @**all** y")
    ∧ (∀ (uh : Nat → UserInfo) (ntc : String → Option String) (seq : SeqTab)
          (raws : List RawMessage),
        (Rocketchat.processLoop uh ntc seq raws).1.map (fun z => z.content)
          = (raws.map (fun r => Rocketchat.fix_mentions uh r.content r.mention_user_ids)).filter
              (fun c => c.length ≤ 10000)) :=
  ⟨by decide, by decide, by decide,
   fun uh ntc seq raws => Rocketchat.processLoop_contents uh ntc raws seq⟩

/-! ## Claim C6: over-long messages are dropped, non-fatally -/

/-- A 10001-character message body. -/
def longContent : String := ⟨List.replicate 10001 'z'⟩

/-- A converted message whose body exceeds the ceiling after rewriting. -/
def longRaw : RawMessage := ⟨0, longContent, 0, [], 0, "", []⟩

/-- A converted message with a one-character body. -/
def shortRaw : RawMessage := ⟨0, "a", 0, [], 0, "", []⟩

theorem fix_mentions_long (uh : Nat → UserInfo) :
    Rocketchat.fix_mentions uh longContent [] = longContent := by
  apply fix_mentions_no_at
  intro hmem
  have h := List.eq_of_mem_replicate hmem
  exact absurd h (by decide)

theorem long_length (uh : Nat → UserInfo) :
    10000 < (Rocketchat.fix_mentions uh longContent []).length := by
  rw [fix_mentions_long]
  show 10000 < (List.replicate 10001 'z').length
  rw [List.length_replicate]
  omega

theorem keepB_long (uh : Nat → UserInfo) : keepB uh longRaw = false := by
  apply keepB_eq_false
  exact long_length uh

/-- C6: if the i-th raw message of a batch has rewritten content longer than
10000, the message id drawn for it appears in no emitted zerver_message
record and in no emitted reaction record, while the surviving messages of
the batch are still emitted (their ids are exactly the kept ids). -/
theorem claim6_thm (uh : Nat → UserInfo) (ntc : String → Option String) (seq : SeqTab)
    (raws : List RawMessage) (i : Nat) (hi : i < raws.length)
    (hlong : 10000 < (Rocketchat.fix_mentions uh (raws.get ⟨i, hi⟩).content
        (raws.get ⟨i, hi⟩).mention_user_ids).length) :
    ((seq "message" + i) ∉ (Rocketchat.processLoop uh ntc seq raws).1.map (fun z => z.id))
    ∧ ((seq "message" + i)
        ∉ (Rocketchat.processLoop uh ntc seq raws).2.1.map (fun r => r.message_id))
    ∧ (Rocketchat.processLoop uh ntc seq raws).1.map (fun z => z.id)
        = keptIds (keepB uh) (seq "message") raws := by
  have hids := Rocketchat.processLoop_ids uh ntc raws seq
  have hkeep : keepB uh (raws.get ⟨i, hi⟩) = false := keepB_eq_false hlong
  have hnot : (seq "message" + i) ∉ keptIds (keepB uh) (seq "message") raws :=
    keptIds_not_mem (keepB uh) raws (seq "message") i hi hkeep
  refine ⟨?_, ?_, hids⟩
  · rw [hids]
    exact hnot
  · intro hmem
    rcases List.mem_map.1 hmem with ⟨z, hz, hzid⟩
    have h := Rocketchat.processLoop_reacts uh ntc raws seq z hz
    rw [hzid, hids] at h
    exact hnot h

theorem claim6_witness :
    ((1 : Nat) < ([shortRaw, longRaw] : List RawMessage).length)
    ∧ ((seq0 "message" + 1)
        ∉ (Rocketchat.processLoop uhAlice (fun _ => none) seq0 [shortRaw, longRaw]).1.map
            (fun z => z.id)) := by
  have hi : 1 < ([shortRaw, longRaw] : List RawMessage).length := by decide
  have hlong : 10000 < (Rocketchat.fix_mentions uhAlice
      (([shortRaw, longRaw] : List RawMessage).get ⟨1, hi⟩).content
      (([shortRaw, longRaw] : List RawMessage).get ⟨1, hi⟩).mention_user_ids).length := by
    show 10000 < (Rocketchat.fix_mentions uhAlice longContent []).length
    exact long_length uhAlice
  exact ⟨hi, (claim6_thm uhAlice (fun _ => none) seq0 [shortRaw, longRaw] 1 hi hlong).1⟩

/-! ## Claim C7: event-tagged messages produce nothing and touch nothing -/

/-- C7: process_messages computes the same complete result (artifacts,
reactions, both id-mapper states and the counter state) on a message list
and on that list with all event-tagged messages removed, so an event-tagged
message produces no target message and undergoes no mention, rewrite or
reaction processing; in particular a list of only event-tagged messages
yields no artifacts and leaves every state unchanged. -/
theorem claim7_thm (ctx : ConvCtx) (is_pm_data : Bool) (uh : Nat → UserInfo)
    (ntc : String → Option String) (realm_id : Nat) (umap smap : IdMapper)
    (seq : SeqTab) (messages : List RCMessage) :
    (Rocketchat.process_messages ctx is_pm_data uh ntc realm_id umap smap seq messages
      = Rocketchat.process_messages ctx is_pm_data uh ntc realm_id umap smap seq
          (messages.filter (fun m => m.t = none)))
    ∧ ((∀ m ∈ messages, m.t ≠ none) →
        Rocketchat.process_messages ctx is_pm_data uh ntc realm_id umap smap seq messages
          = some ([], [], umap, smap, seq)) := by
  have h1 : Rocketchat.process_messages ctx is_pm_data uh ntc realm_id umap smap seq messages
      = Rocketchat.process_messages ctx is_pm_data uh ntc realm_id umap smap seq
          (messages.filter (fun m => m.t = none)) := by
    rw [Rocketchat.process_messages, Rocketchat.process_messages,
        ← Rocketchat.convertRaws_filter]
  refine ⟨h1, ?_⟩
  intro hall
  have hfilter : messages.filter (fun m => m.t = none) = [] := by
    rw [List.filter_eq_nil_iff]
    intro m hm
    simp [hall m hm]
  rw [h1, hfilter]
  rfl

/-- An event-tagged message (a user_joined feed entry). -/
def msgEvent : RCMessage := ⟨"A", "x", 0, some "r1", some "au", [], []⟩

theorem claim7_witness :
    (∀ m ∈ ([msgEvent] : List RCMessage), m.t ≠ none)
    ∧ Rocketchat.process_messages ctx0 false uhAlice (fun _ => none) 0 umap0 smap0 seq0 [msgEvent]
      = some ([], [], umap0, smap0, seq0) := by
  have h := (claim7_thm ctx0 false uhAlice (fun _ => none) 0 umap0 smap0 seq0 [msgEvent]).2
    (by decide)
  exact ⟨by decide, h⟩

/-! ## Claims C1 and C10: batch emission, message ids and drops -/

theorem keepB_short (uh : Nat → UserInfo) : keepB uh shortRaw = true := by
  apply keepB_eq_true
  show ¬ 10000 < (Rocketchat.fix_mentions uh "a" []).length
  rw [fix_mentions_no_at uh "a" (by decide)]
  decide

theorem keptIds_replicate_short (uh : Nat → UserInfo) (n k : Nat) :
    keptIds (keepB uh) n (List.replicate k shortRaw) = List.range' n k := by
  have h := keptIds_all (keepB uh) (List.replicate k shortRaw) n
    (fun r hr => by rw [List.eq_of_mem_replicate hr]; exact keepB_short uh)
  rw [h, List.length_replicate]

/-- The three chunks a 2500-element converted-message list is split into. -/
theorem chunks_2500 (l : List RawMessage) (hl : l.length = 2500) :
    Rocketchat.chunksOf 1000 l
      = [l.take 1000, (l.drop 1000).take 1000, (l.drop 1000).drop 1000] := by
  have h1 : l ≠ [] := by
    intro e
    rw [e] at hl
    simp at hl
  rw [Rocketchat.chunksOf_cons (by omega) l h1]
  have hd1 : (l.drop 1000).length = 1500 := by rw [List.length_drop]; omega
  have h2 : l.drop 1000 ≠ [] := by
    intro e
    rw [e] at hd1
    simp at hd1
  rw [Rocketchat.chunksOf_cons (by omega) _ h2]
  have hd2 : ((l.drop 1000).drop 1000).length = 500 := by rw [List.length_drop]; omega
  have h3 : (l.drop 1000).drop 1000 ≠ [] := by
    intro e
    rw [e] at hd2
    simp at hd2
  rw [Rocketchat.chunksOf_cons (by omega) _ h3]
  have h4 : ((l.drop 1000).drop 1000).drop 1000 = [] := List.drop_eq_nil_of_le (by omega)
  have h5 : Rocketchat.chunksOf 1000 (((l.drop 1000).drop 1000).drop 1000) = [] := by
    rw [h4]
    rfl
  have htake : ((l.drop 1000).drop 1000).take 1000 = (l.drop 1000).drop 1000 :=
    List.take_of_length_le (by omega)
  rw [h5, htake]

/-- C10 (amended): every raw message entering the chunked emission consumes
exactly one value of the shared "message" counter before the length check
(the counter advances by the full input length, drops included); the ids of
the emitted messages across all artifacts are the counter base plus the
positions of the kept messages, so each length-dropped message's id is
assigned to no emitted message, and the ids are contiguous when no message
is dropped. -/
theorem claim10_thm (uh : Nat → UserInfo) (ntc : String → Option String) (realm_id : Nat)
    (seq : SeqTab) (raws : List RawMessage) :
    ((Rocketchat.emitBatches uh ntc realm_id seq (Rocketchat.chunksOf 1000 raws)).2.2 "message"
        = seq "message" + raws.length)
    ∧ (((Rocketchat.emitBatches uh ntc realm_id seq (Rocketchat.chunksOf 1000 raws)).1.map
          (fun a => a.messages.map (fun z => z.id))).flatten
        = keptIds (keepB uh) (seq "message") raws)
    ∧ (∀ (i : Nat) (h : i < raws.length), keepB uh (raws.get ⟨i, h⟩) = false →
        (seq "message" + i)
          ∉ ((Rocketchat.emitBatches uh ntc realm_id seq (Rocketchat.chunksOf 1000 raws)).1.map
              (fun a => a.messages.map (fun z => z.id))).flatten)
    ∧ ((∀ r ∈ raws, keepB uh r = true) →
        ((Rocketchat.emitBatches uh ntc realm_id seq (Rocketchat.chunksOf 1000 raws)).1.map
            (fun a => a.messages.map (fun z => z.id))).flatten
          = List.range' (seq "message") raws.length) := by
  have hflat : (Rocketchat.chunksOf 1000 raws).flatten = raws :=
    Rocketchat.chunksOf_flatten (by omega) raws
  have hspec := Rocketchat.emitBatches_spec uh ntc realm_id (Rocketchat.chunksOf 1000 raws) seq
  rw [hflat] at hspec
  refine ⟨hspec.2, hspec.1, ?_, ?_⟩
  · intro i h hdrop
    rw [hspec.1]
    exact keptIds_not_mem _ raws _ i h hdrop
  · intro hall
    rw [hspec.1, keptIds_all _ raws _ hall]

theorem claim10_witness :
    ((Rocketchat.emitBatches uhAlice (fun _ => none) 0 seq0
        (Rocketchat.chunksOf 1000 [shortRaw, longRaw])).2.2 "message"
      = seq0 "message" + ([shortRaw, longRaw] : List RawMessage).length)
    ∧ ((seq0 "message" + 1)
        ∉ ((Rocketchat.emitBatches uhAlice (fun _ => none) 0 seq0
            (Rocketchat.chunksOf 1000 [shortRaw, longRaw])).1.map
              (fun a => a.messages.map (fun z => z.id))).flatten) := by
  have h := claim10_thm uhAlice (fun _ => none) 0 seq0 [shortRaw, longRaw]
  exact ⟨h.1, h.2.2.1 1 (by decide) (keepB_long uhAlice)⟩

/-- C10 (counterexample to the claim as stated): in a run of three raw
messages where only the last is dropped for length, a drop occurs and yet
the emitted message ids [0, 1] are still contiguous, refuting "ids are
contiguous only when no message in the run is dropped for length". -/
theorem claim10_counterexample :
    (((Rocketchat.emitBatches uhAlice (fun _ => none) 0 seq0
        (Rocketchat.chunksOf 1000 [shortRaw, shortRaw, longRaw])).1.map
          (fun a => a.messages.map (fun z => z.id))).flatten = List.range' 0 2)
    ∧ (keepB uhAlice longRaw = false)
    ∧ (longRaw ∈ ([shortRaw, shortRaw, longRaw] : List RawMessage)) := by
  refine ⟨?_, keepB_long uhAlice,
    List.mem_cons_of_mem _ (List.mem_cons_of_mem _ (List.mem_cons_self _ _))⟩
  have hflat : (Rocketchat.chunksOf 1000 ([shortRaw, shortRaw, longRaw] : List RawMessage)).flatten
      = [shortRaw, shortRaw, longRaw] :=
    Rocketchat.chunksOf_flatten (by omega) _
  have hspec := Rocketchat.emitBatches_spec uhAlice (fun _ => none) 0
    (Rocketchat.chunksOf 1000 [shortRaw, shortRaw, longRaw]) seq0
  rw [hflat] at hspec
  rw [hspec.1]
  show keptIds (keepB uhAlice) 0 [shortRaw, shortRaw, longRaw] = List.range' 0 2
  rw [keptIds, keepB_short uhAlice]
  simp only [if_true]
  rw [keptIds, keepB_short uhAlice]
  simp only [if_true]
  rw [keptIds, keepB_long uhAlice]
  simp only [Bool.false_eq_true, if_false]
  rw [keptIds]
  decide

/-- C1 (amended): a run whose conversion stage yields 2500 converted message
records, none of which exceeds the rewritten-length ceiling, is emitted as
exactly 3 artifacts of 1000, 1000 and 500 messages, and the message ids
across all artifacts are the contiguous gap-free range of 2500 ids starting
at the "message" counter's value. -/
theorem claim1_thm (uh : Nat → UserInfo) (ntc : String → Option String) (realm_id : Nat)
    (seq : SeqTab) (raws : List RawMessage)
    (hlen : raws.length = 2500)
    (hshort : ∀ r ∈ raws, keepB uh r = true) :
    ((Rocketchat.emitBatches uh ntc realm_id seq (Rocketchat.chunksOf 1000 raws)).1.length = 3)
    ∧ ((Rocketchat.emitBatches uh ntc realm_id seq (Rocketchat.chunksOf 1000 raws)).1.map
        (fun a => a.messages.length) = [1000, 1000, 500])
    ∧ (((Rocketchat.emitBatches uh ntc realm_id seq (Rocketchat.chunksOf 1000 raws)).1.map
          (fun a => a.messages.map (fun z => z.id))).flatten
        = List.range' (seq "message") 2500) := by
  have hflat : (Rocketchat.chunksOf 1000 raws).flatten = raws :=
    Rocketchat.chunksOf_flatten (by omega) raws
  have hsizes := Rocketchat.emitBatches_sizes uh ntc realm_id (Rocketchat.chunksOf 1000 raws) seq
  have hchunks := chunks_2500 raws hlen
  have hkept : ∀ c ∈ Rocketchat.chunksOf 1000 raws, ∀ r ∈ c, keepB uh r = true := by
    intro c hc r hr
    apply hshort
    rw [← hflat]
    exact List.mem_flatten.2 ⟨c, hc, hr⟩
  have hsizes2 : (Rocketchat.emitBatches uh ntc realm_id seq
      (Rocketchat.chunksOf 1000 raws)).1.map (fun a => a.messages.length)
      = (Rocketchat.chunksOf 1000 raws).map List.length := by
    rw [hsizes]
    apply List.map_congr_left
    intro c hc
    rw [keptIds_all (keepB uh) c 0 (hkept c hc), List.length_range']
  have hlens : (Rocketchat.chunksOf 1000 raws).map List.length = [1000, 1000, 500] := by
    rw [hchunks]
    simp only [List.map_cons, List.map_nil]
    have ht1 : (raws.take 1000).length = 1000 := by rw [List.length_take]; omega
    have hd1 : (raws.drop 1000).length = 1500 := by rw [List.length_drop]; omega
    have ht2 : ((raws.drop 1000).take 1000).length = 1000 := by rw [List.length_take]; omega
    have hd2 : ((raws.drop 1000).drop 1000).length = 500 := by rw [List.length_drop]; omega
    rw [ht1, ht2, hd2]
  have hsz : (Rocketchat.emitBatches uh ntc realm_id seq
      (Rocketchat.chunksOf 1000 raws)).1.map (fun a => a.messages.length) = [1000, 1000, 500] := by
    rw [hsizes2, hlens]
  refine ⟨?_, hsz, ?_⟩
  · have := congrArg List.length hsz
    simpa using this
  · have hspec := Rocketchat.emitBatches_spec uh ntc realm_id (Rocketchat.chunksOf 1000 raws) seq
    rw [hflat] at hspec
    rw [hspec.1, keptIds_all _ raws _ hshort, hlen]

theorem claim1_witness :
    ((List.replicate 2500 shortRaw : List RawMessage).length = 2500)
    ∧ ((Rocketchat.emitBatches uhAlice (fun _ => none) 0 seq0
        (Rocketchat.chunksOf 1000 (List.replicate 2500 shortRaw))).1.map
          (fun a => a.messages.length) = [1000, 1000, 500]) := by
  have hlen : (List.replicate 2500 shortRaw : List RawMessage).length = 2500 := by
    rw [List.length_replicate]
  have hshort : ∀ r ∈ (List.replicate 2500 shortRaw : List RawMessage), keepB uhAlice r = true := by
    intro r hr
    rw [List.eq_of_mem_replicate hr]
    exact keepB_short uhAlice
  exact ⟨hlen,
    (claim1_thm uhAlice (fun _ => none) 0 seq0 (List.replicate 2500 shortRaw) hlen hshort).2.1⟩

/-- C1 (counterexample to the claim as stated): a run of exactly 2500
converted message records in which the last record's body exceeds the
rewritten-length ceiling still produces 3 artifacts, but of sizes
1000, 1000 and 499, not 1000, 1000 and 500. -/
theorem claim1_counterexample :
    ((List.replicate 2499 shortRaw ++ [longRaw] : List RawMessage).length = 2500)
    ∧ ((Rocketchat.emitBatches uhAlice (fun _ => none) 0 seq0
        (Rocketchat.chunksOf 1000 (List.replicate 2499 shortRaw ++ [longRaw]))).1.map
          (fun a => a.messages.length) = [1000, 1000, 499])
    ∧ (([1000, 1000, 499] : List Nat) ≠ [1000, 1000, 500]) := by
  have hlen : (List.replicate 2499 shortRaw ++ [longRaw] : List RawMessage).length = 2500 := by
    rw [List.length_append, List.length_replicate]
    rfl
  refine ⟨hlen, ?_, by decide⟩
  have hsizes := Rocketchat.emitBatches_sizes uhAlice (fun _ => none) 0
    (Rocketchat.chunksOf 1000 (List.replicate 2499 shortRaw ++ [longRaw])) seq0
  rw [hsizes, chunks_2500 _ hlen]
  have hmin1 : (1000 : Nat) ⊓ 2499 = 1000 := by omega
  have hmin2 : (1000 : Nat) ⊓ 1499 = 1000 := by omega
  have htake1 : (List.replicate 2499 shortRaw ++ [longRaw] : List RawMessage).take 1000
      = List.replicate 1000 shortRaw := by
    rw [List.take_append_of_le_length (by rw [List.length_replicate]; omega),
        List.take_replicate, hmin1]
  have hdrop1 : (List.replicate 2499 shortRaw ++ [longRaw] : List RawMessage).drop 1000
      = List.replicate 1499 shortRaw ++ [longRaw] := by
    rw [List.drop_append_of_le_length (by rw [List.length_replicate]; omega),
        List.drop_replicate]
  have htake2 : ((List.replicate 1499 shortRaw ++ [longRaw] : List RawMessage)).take 1000
      = List.replicate 1000 shortRaw := by
    rw [List.take_append_of_le_length (by rw [List.length_replicate]; omega),
        List.take_replicate, hmin2]
  have hdrop2 : ((List.replicate 1499 shortRaw ++ [longRaw] : List RawMessage)).drop 1000
      = List.replicate 499 shortRaw ++ [longRaw] := by
    rw [List.drop_append_of_le_length (by rw [List.length_replicate]; omega),
        List.drop_replicate]
  rw [hdrop1, htake2, hdrop2, htake1]
  simp only [List.map_cons, List.map_nil]
  have hk1 : (keptIds (keepB uhAlice) 0 (List.replicate 1000 shortRaw)).length = 1000 := by
    rw [keptIds_replicate_short, List.length_range']
  have hk3 : (keptIds (keepB uhAlice) 0 (List.replicate 499 shortRaw ++ [longRaw])).length
      = 499 := by
    rw [keptIds_append, List.length_append, keptIds_replicate_short, List.length_range',
        List.length_replicate]
    have hlast : keptIds (keepB uhAlice) (0 + 499) [longRaw] = [] := by
      rw [keptIds, keepB_long uhAlice]
      simp only [Bool.false_eq_true, if_false]
      rfl
    rw [hlast]
    rfl
  rw [hk1, hk3]

/-! ## Claim C8: channel categorization -/

namespace Rocketchat

/-- The id-keyed entry a channel contributes to its index. -/
def chPair (c : RCChannel) : String × RCChannel := (c.chid, c)

/-- The direct-channel test as categorize_channels_and_map_with_id reaches
it: not a discussion, and type tag "d". -/
def dirB (c : RCChannel) : Bool := !isDsc c && (c.t == "d")

/-- The room test: not a discussion and not a direct channel. -/
def roomB (c : RCChannel) : Bool := !isDsc c && !(c.t == "d")

theorem categorizeAux_spec :
    ∀ (channels : List RCChannel) (rooms teams dscs directs : ChannelIndex)
      (out : ChannelIndex × ChannelIndex × ChannelIndex × ChannelIndex),
      categorizeAux rooms teams dscs directs channels = some out →
      out.1 = ((channels.filter roomB).reverse.map chPair) ++ rooms
      ∧ out.2.2.1 = ((channels.filter (fun c => isDsc c)).reverse.map chPair) ++ dscs
      ∧ out.2.2.2 = ((channels.filter dirB).reverse.map chPair) ++ directs
      ∧ (∀ p ∈ teams, p ∈ out.2.1)
      ∧ (∀ c ∈ channels, roomB c = true → c.teamMain = some true →
          ∃ tid, c.teamId = some tid ∧ (tid, c) ∈ out.2.1) := by
  intro channels
  induction channels with
  | nil =>
    intro rooms teams dscs directs out h
    rw [categorizeAux] at h
    injection h with h
    subst h
    exact ⟨by simp, by simp, by simp, fun p hp => hp, by simp⟩
  | cons channel rest ih =>
    intro rooms teams dscs directs out h
    rw [categorizeAux] at h
    by_cases h1 : isDsc channel = true
    · rw [if_pos h1] at h
      obtain ⟨e1, e2, e3, e4, e5⟩ := ih rooms teams ((channel.chid, channel) :: dscs) directs out h
      have hr : roomB channel = false := by simp [roomB, h1]
      have hd : dirB channel = false := by simp [dirB, h1]
      refine ⟨?_, ?_, ?_, e4, ?_⟩
      · simp only [List.filter_cons, hr, Bool.false_eq_true, if_false]
        exact e1
      · simp only [List.filter_cons, h1, if_true, List.reverse_cons, List.map_append,
          List.append_assoc]
        rw [e2]
        rfl
      · simp only [List.filter_cons, hd, Bool.false_eq_true, if_false]
        exact e3
      · intro c hc hroom hteam
        rcases List.mem_cons.1 hc with he | hm
        · subst he
          rw [hr] at hroom
          cases hroom
        · exact e5 c hm hroom hteam
    · have h1f : isDsc channel = false := by
        cases hb : isDsc channel
        · rfl
        · exact absurd hb h1
      by_cases h2 : channel.t = "d"
      · rw [if_neg h1, if_pos h2] at h
        obtain ⟨e1, e2, e3, e4, e5⟩ :=
          ih rooms teams dscs ((channel.chid, channel) :: directs) out h
        have hr : roomB channel = false := by simp [roomB, h2]
        have hd : dirB channel = true := by simp [dirB, h1f, h2]
        refine ⟨?_, ?_, ?_, e4, ?_⟩
        · simp only [List.filter_cons, hr, Bool.false_eq_true, if_false]
          exact e1
        · simp only [List.filter_cons, h1f, Bool.false_eq_true, if_false]
          exact e2
        · simp only [List.filter_cons, hd, if_true, List.reverse_cons, List.map_append,
            List.append_assoc]
          rw [e3]
          rfl
        · intro c hc hroom hteam
          rcases List.mem_cons.1 hc with he | hm
          · subst he
            rw [hr] at hroom
            cases hroom
          · exact e5 c hm hroom hteam
      · have hr : roomB channel = true := by simp [roomB, h1f, h2]
        have hd : dirB channel = false := by simp [dirB, h2]
        by_cases h3 : channel.teamMain = some true
        · rw [if_neg h1, if_neg h2, if_pos h3] at h
          cases ht : channel.teamId with
          | none => rw [ht] at h; cases h
          | some tid =>
            rw [ht] at h
            dsimp only at h
            obtain ⟨e1, e2, e3, e4, e5⟩ := ih ((channel.chid, channel) :: rooms)
              ((tid, channel) :: teams) dscs directs out h
            refine ⟨?_, ?_, ?_, ?_, ?_⟩
            · simp only [List.filter_cons, hr, if_true, List.reverse_cons, List.map_append,
                List.append_assoc]
              rw [e1]
              rfl
            · simp only [List.filter_cons, h1f, Bool.false_eq_true, if_false]
              exact e2
            · simp only [List.filter_cons, hd, Bool.false_eq_true, if_false]
              exact e3
            · intro p hp
              exact e4 p (List.mem_cons_of_mem _ hp)
            · intro c hc hroom hteam
              rcases List.mem_cons.1 hc with he | hm
              · subst he
                exact ⟨tid, ht, e4 (tid, c) (List.mem_cons_self _ _)⟩
              · exact e5 c hm hroom hteam
        · rw [if_neg h1, if_neg h2, if_neg h3] at h
          obtain ⟨e1, e2, e3, e4, e5⟩ := ih ((channel.chid, channel) :: rooms)
            teams dscs directs out h
          refine ⟨?_, ?_, ?_, e4, ?_⟩
          · simp only [List.filter_cons, hr, if_true, List.reverse_cons, List.map_append,
              List.append_assoc]
            rw [e1]
            rfl
          · simp only [List.filter_cons, h1f, Bool.false_eq_true, if_false]
            exact e2
          · simp only [List.filter_cons, hd, Bool.false_eq_true, if_false]
            exact e3
          · intro c hc hroom hteam
            rcases List.mem_cons.1 hc with he | hm
            · subst he
              exact absurd hteam h3
            · exact e5 c hm hroom hteam

end Rocketchat

theorem lookup_pairs_some :
    ∀ (l : List RCChannel), ((l.map RCChannel.chid).Nodup) →
      ∀ c ∈ l, List.lookup c.chid (l.map Rocketchat.chPair) = some c := by
  intro l
  induction l with
  | nil => intro _ c hc; cases hc
  | cons x rest ih =>
    intro hnd c hc
    have hnd2 : x.chid ∉ rest.map RCChannel.chid ∧ (rest.map RCChannel.chid).Nodup := by
      rw [List.map_cons] at hnd
      exact List.nodup_cons.1 hnd
    by_cases he : c = x
    · subst he
      simp [Rocketchat.chPair, List.lookup]
    · have hcrest : c ∈ rest := by
        rcases List.mem_cons.1 hc with h | h
        · exact absurd h he
        · exact h
      have hne : c.chid ≠ x.chid := by
        intro e
        exact hnd2.1 (e ▸ List.mem_map_of_mem _ hcrest)
      have hstep : List.lookup c.chid ((x :: rest).map Rocketchat.chPair)
          = List.lookup c.chid (rest.map Rocketchat.chPair) := by
        rw [List.map_cons]
        show List.lookup c.chid ((x.chid, x) :: rest.map Rocketchat.chPair) = _
        rw [List.lookup, beq_eq_false_iff_ne.2 hne]
      rw [hstep]
      exact ih hnd2.2 c hcrest

theorem lookup_pairs_none :
    ∀ (l : List RCChannel) (k : String), k ∉ l.map RCChannel.chid →
      List.lookup k (l.map Rocketchat.chPair) = none := by
  intro l
  induction l with
  | nil => intro k _; rfl
  | cons x rest ih =>
    intro k hk
    have hne : k ≠ x.chid := by
      intro e
      exact hk (by rw [List.map_cons, e]; exact List.mem_cons_self _ _)
    have hkrest : k ∉ rest.map RCChannel.chid := by
      intro hm
      exact hk (by rw [List.map_cons]; exact List.mem_cons_of_mem _ hm)
    rw [List.map_cons]
    show List.lookup k ((x.chid, x) :: rest.map Rocketchat.chPair) = none
    rw [List.lookup, beq_eq_false_iff_ne.2 hne]
    exact ih k hkrest

theorem chid_filter_nodup (channels : List RCChannel)
    (hnd : (channels.map RCChannel.chid).Nodup) (p : RCChannel → Bool) :
    (((channels.filter p).reverse).map RCChannel.chid).Nodup := by
  rw [List.map_reverse]
  rw [List.nodup_reverse]
  exact hnd.sublist ((channels.filter_sublist).map RCChannel.chid)

theorem chid_filter_not_mem (channels : List RCChannel)
    (hnd : (channels.map RCChannel.chid).Nodup) (p : RCChannel → Bool) (c : RCChannel)
    (hc : c ∈ channels) (hp : p c = false) :
    c.chid ∉ ((channels.filter p).reverse).map RCChannel.chid := by
  intro hmem
  rw [List.map_reverse, List.mem_reverse] at hmem
  rcases List.mem_map.1 hmem with ⟨c2, hc2, hid⟩
  have hc2mem := (List.mem_filter.1 hc2).1
  have hc2p := (List.mem_filter.1 hc2).2
  have : c2 = c := List.inj_on_of_nodup_map hnd hc2mem hc hid
  rw [this] at hc2p
  rw [hp] at hc2p
  cases hc2p

/-- C8: under categorize_channels_and_map_with_id, every raw channel record
(with distinct ids across the input, as database primary keys are) lands in
exactly one of the discussion, direct and room indexes, chosen by the
precedence discussion, then direct, then room, and a room flagged as a
team's main channel is additionally recorded in the team index under its
team id. -/
theorem claim8_thm (channel_data : List RCChannel)
    (out : Rocketchat.ChannelIndex × Rocketchat.ChannelIndex × Rocketchat.ChannelIndex ×
      Rocketchat.ChannelIndex)
    (hcat : Rocketchat.categorize_channels_and_map_with_id channel_data = some out)
    (hnd : (channel_data.map RCChannel.chid).Nodup) :
    ∀ c ∈ channel_data,
      (Rocketchat.isDsc c = true →
        List.lookup c.chid out.2.2.1 = some c
        ∧ List.lookup c.chid out.2.2.2 = none
        ∧ List.lookup c.chid out.1 = none)
      ∧ (Rocketchat.isDsc c = false → c.t = "d" →
        List.lookup c.chid out.2.2.2 = some c
        ∧ List.lookup c.chid out.2.2.1 = none
        ∧ List.lookup c.chid out.1 = none)
      ∧ (Rocketchat.isDsc c = false → c.t ≠ "d" →
        List.lookup c.chid out.1 = some c
        ∧ List.lookup c.chid out.2.2.1 = none
        ∧ List.lookup c.chid out.2.2.2 = none
        ∧ (c.teamMain = some true →
            ∃ tid, c.teamId = some tid ∧ (tid, c) ∈ out.2.1)) := by
  obtain ⟨e1, e2, e3, _, e5⟩ :=
    Rocketchat.categorizeAux_spec channel_data [] [] [] [] out hcat
  rw [List.append_nil] at e1 e2 e3
  intro c hc
  refine ⟨?_, ?_, ?_⟩
  · intro hdsc
    have hroom : Rocketchat.roomB c = false := by simp [Rocketchat.roomB, hdsc]
    have hdir : Rocketchat.dirB c = false := by simp [Rocketchat.dirB, hdsc]
    have hcf : c ∈ (channel_data.filter (fun x => Rocketchat.isDsc x)).reverse := by
      rw [List.mem_reverse]
      exact List.mem_filter.2 ⟨hc, hdsc⟩
    refine ⟨?_, ?_, ?_⟩
    · rw [e2]
      exact lookup_pairs_some _ (chid_filter_nodup channel_data hnd _) c hcf
    · rw [e3]
      exact lookup_pairs_none _ _ (chid_filter_not_mem channel_data hnd _ c hc hdir)
    · rw [e1]
      exact lookup_pairs_none _ _ (chid_filter_not_mem channel_data hnd _ c hc hroom)
  · intro hdsc ht
    have hroom : Rocketchat.roomB c = false := by simp [Rocketchat.roomB, ht]
    have hdir : Rocketchat.dirB c = true := by simp [Rocketchat.dirB, hdsc, ht]
    have hcf : c ∈ (channel_data.filter Rocketchat.dirB).reverse := by
      rw [List.mem_reverse]
      exact List.mem_filter.2 ⟨hc, hdir⟩
    refine ⟨?_, ?_, ?_⟩
    · rw [e3]
      exact lookup_pairs_some _ (chid_filter_nodup channel_data hnd _) c hcf
    · rw [e2]
      have hdscf : (fun x => Rocketchat.isDsc x) c = false := hdsc
      exact lookup_pairs_none _ _ (chid_filter_not_mem channel_data hnd _ c hc hdscf)
    · rw [e1]
      exact lookup_pairs_none _ _ (chid_filter_not_mem channel_data hnd _ c hc hroom)
  · intro hdsc ht
    have hroom : Rocketchat.roomB c = true := by simp [Rocketchat.roomB, hdsc, ht]
    have hdir : Rocketchat.dirB c = false := by simp [Rocketchat.dirB, ht]
    have hcf : c ∈ (channel_data.filter Rocketchat.roomB).reverse := by
      rw [List.mem_reverse]
      exact List.mem_filter.2 ⟨hc, hroom⟩
    refine ⟨?_, ?_, ?_, ?_⟩
    · rw [e1]
      exact lookup_pairs_some _ (chid_filter_nodup channel_data hnd _) c hcf
    · rw [e2]
      have hdscf : (fun x => Rocketchat.isDsc x) c = false := hdsc
      exact lookup_pairs_none _ _ (chid_filter_not_mem channel_data hnd _ c hc hdscf)
    · rw [e3]
      exact lookup_pairs_none _ _ (chid_filter_not_mem channel_data hnd _ c hc hdir)
    · intro hteam
      exact e5 c hc hroom hteam

/-- A discussion channel under parent p1. -/
def ch1 : RCChannel := ⟨"c1", "c", some "p1", none, none⟩

/-- A direct-pair channel. -/
def ch2 : RCChannel := ⟨"d1", "d", none, none, none⟩

/-- A room that is team t1's main channel. -/
def ch3 : RCChannel := ⟨"r1", "c", none, some true, some "t1"⟩

theorem claim8_witness :
    ((([ch1, ch2, ch3] : List RCChannel).map RCChannel.chid).Nodup)
    ∧ (List.lookup ch1.chid ([("c1", ch1)] : Rocketchat.ChannelIndex) = some ch1)
    ∧ (List.lookup ch1.chid ([("d1", ch2)] : Rocketchat.ChannelIndex) = none) := by
  have hcat : Rocketchat.categorize_channels_and_map_with_id [ch1, ch2, ch3]
      = some ([("r1", ch3)], [("t1", ch3)], [("c1", ch1)], [("d1", ch2)]) := by rfl
  have hnd : (([ch1, ch2, ch3] : List RCChannel).map RCChannel.chid).Nodup := by decide
  have h := claim8_thm [ch1, ch2, ch3]
    ([("r1", ch3)], [("t1", ch3)], [("c1", ch1)], [("d1", ch2)]) hcat hnd
    ch1 (List.mem_cons_self _ _)
  exact ⟨hnd, (h.1 (by decide)).1, (h.1 (by decide)).2.1⟩

/-! ## Claim C9: the two importer variants compared -/

/-- What variant B (rocketchat1.py) converts msgA to: same recipient, but
the direct-message topic placeholder differs from variant A's. -/
def rawA1 : RawMessage := ⟨0, "hi", 0, [], 1001, "Imported from rocketchat", []⟩

/-- A message whose rid is present but empty: variant A's separation drops
it (empty string is falsy in Python), variant B's keeps it. -/
def msgE : RCMessage := ⟨"A", "x", 0, some "", none, [], []⟩

/-- C9 (counterexample to the claim as stated): on the same direct message
the two variants' message_to_dict produce different topic strings ("" versus
"Imported from rocketchat"), and on a message with an empty rid the two
variants' separate_channel_and_private_messages produce different
partitions. -/
theorem claim9_counterexample :
    (Rocketchat.message_to_dict ctx0 true umap0 smap0 msgA = some (rawA, umap0, smap0))
    ∧ (Rocketchat1.message_to_dict ctx0 true umap0 smap0 msgA = some (rawA1, umap0, smap0))
    ∧ (rawA.topic_name ≠ rawA1.topic_name)
    ∧ (Rocketchat.separate_channel_and_private_messages ctx0.direct_id_to_direct_map [msgE]
        = ([], []))
    ∧ (Rocketchat1.separate_channel_and_private_messages ctx0.direct_id_to_direct_map [msgE]
        = some ([msgE], []))
    ∧ (some (Rocketchat.separate_channel_and_private_messages ctx0.direct_id_to_direct_map [msgE])
        ≠ Rocketchat1.separate_channel_and_private_messages ctx0.direct_id_to_direct_map [msgE]) :=
  ⟨by decide, by decide, by decide, by decide, by decide, by decide⟩

/-- C9 (amended): the two variants agree where their code agrees: the
message partitions coincide on messages with a present, non-empty rid; for
the same input states, message_to_dict yields the same recipient id for
channel messages, and the same topic for discussion messages; for direct
messages it yields the same recipient id provided the pair's members already
have mapper bindings (as process_users guarantees).  The direct-message and
room default topic strings, and the handling of absent or empty rids,
genuinely differ between the variants (see the counterexample). -/
theorem claim9_thm :
    (∀ (dm : String → Option DirectChannel) (messages : List RCMessage),
      (∀ m ∈ messages, ∃ r, m.rid = some r ∧ r ≠ "") →
      Rocketchat1.separate_channel_and_private_messages dm messages
        = some (Rocketchat.separate_channel_and_private_messages dm messages))
    ∧ (∀ (ctx : ConvCtx) (umap smap : IdMapper) (message : RCMessage)
        (o1 o2 : RawMessage × IdMapper × IdMapper),
      Rocketchat.message_to_dict ctx false umap smap message = some o1 →
      Rocketchat1.message_to_dict ctx false umap smap message = some o2 →
      o1.1.recipient_id = o2.1.recipient_id
      ∧ (∀ rid, message.rid = some rid → (ctx.dsc_id_to_dsc_map rid).isSome →
          o1.1.topic_name = o2.1.topic_name))
    ∧ (∀ (ctx : ConvCtx) (umap smap : IdMapper) (message : RCMessage) (rid : String)
        (dc : DirectChannel) (o1 o2 : RawMessage × IdMapper × IdMapper),
      message.rid = some rid →
      ctx.direct_id_to_direct_map rid = some dc →
      (∀ u ∈ dc.uids, ∃ v, umap.map.lookup u = some v) →
      Rocketchat.message_to_dict ctx true umap smap message = some o1 →
      Rocketchat1.message_to_dict ctx true umap smap message = some o2 →
      o1.1.recipient_id = o2.1.recipient_id) := by
  refine ⟨?_, ?_, ?_⟩
  · intro dm messages
    induction messages with
    | nil => intro _; rfl
    | cons m rest ih =>
      intro hall
      obtain ⟨r, hr, hne⟩ := hall m (List.mem_cons_self _ _)
      have ihr := ih (fun x hx => hall x (List.mem_cons_of_mem _ hx))
      rw [Rocketchat1.separate_channel_and_private_messages, hr, ihr,
          Rocketchat.separate_channel_and_private_messages, hr]
      dsimp only
      rw [if_neg hne]
      by_cases hd : (dm r).isSome = true
      · rw [if_pos hd, if_pos hd]
      · rw [if_neg hd, if_neg hd]
  · intro ctx umap smap message o1 o2 h1 h2
    rw [Rocketchat.message_to_dict] at h1
    rw [Rocketchat1.message_to_dict] at h2
    dsimp only at h1 h2
    cases hlr : Rocketchat.list_reactions ctx ((umap.get message.u_id).2) message.reactions with
    | none => rw [hlr] at h1; cases h1
    | some pr =>
      rcases pr with ⟨reactions, umap1⟩
      rw [hlr] at h1
      cases hrid : message.rid with
      | none => rw [hrid] at h1; cases h1
      | some rid =>
        rw [hrid] at h1 h2
        dsimp only at h1 h2
        rw [if_neg Bool.false_ne_true] at h1 h2
        cases hdsc : ctx.dsc_id_to_dsc_map rid with
        | some dsc_channel =>
          rw [hdsc] at h1 h2
          dsimp only at h1 h2
          cases hs : ctx.stream_id_to_recipient_id ((smap.get dsc_channel.prid).1) with
          | none => rw [hs] at h1; cases h1
          | some recip =>
            rw [hs] at h1 h2
            dsimp only at h1 h2
            injection h1 with h1
            injection h2 with h2
            subst h1
            subst h2
            constructor
            · rfl
            · intro _ _ _
              rfl
        | none =>
          rw [hdsc] at h1 h2
          dsimp only at h1 h2
          cases hs : ctx.stream_id_to_recipient_id ((smap.get rid).1) with
          | none => rw [hs] at h1; cases h1
          | some recip =>
            rw [hs] at h1 h2
            dsimp only at h1 h2
            injection h1 with h1
            injection h2 with h2
            subst h1
            subst h2
            constructor
            · rfl
            · intro rid' hrid' hd
              injection hrid' with he
              subst he
              rw [hdsc] at hd
              simp at hd
  · intro ctx umap smap message rid dc o1 o2 hrid hdc hbound h1 h2
    rw [Rocketchat.message_to_dict] at h1
    rw [Rocketchat1.message_to_dict] at h2
    dsimp only at h1 h2
    cases hlr : Rocketchat.list_reactions ctx ((umap.get message.u_id).2) message.reactions with
    | none => rw [hlr] at h1; cases h1
    | some pr =>
      rcases pr with ⟨reactions, umap1⟩
      rw [hlr] at h1
      rw [hrid] at h1 h2
      dsimp only at h1 h2
      rw [if_pos rfl, hdc] at h1 h2
      dsimp only at h1 h2
      cases hm0 : dc.uids.get? 0 with
      | none => rw [hm0] at h1; cases h1
      | some m0 =>
        rw [hm0] at h1 h2
        dsimp only at h1 h2
        by_cases hu : message.u_id = m0
        · rw [if_pos hu] at h1 h2
          cases hm1 : dc.uids.get? 1 with
          | none => rw [hm1] at h1; cases h1
          | some m1 =>
            rw [hm1] at h1 h2
            dsimp only at h1 h2
            obtain ⟨v, hv⟩ := hbound m1 (List.get?_mem hm1)
            have hv1 : umap1.map.lookup m1 = some v :=
              Rocketchat.list_reactions_mono hlr (IdMapper.lookup_get_mono _ hv)
            have hv2 : ((umap.get message.u_id).2).map.lookup m1 = some v :=
              IdMapper.lookup_get_mono _ hv
            rw [IdMapper.get_of_lookup hv1] at h1
            rw [IdMapper.get_of_lookup hv2] at h2
            dsimp only at h1 h2
            cases hur : ctx.user_id_to_recipient_id v with
            | none => rw [hur] at h1; cases h1
            | some recip =>
              rw [hur] at h1 h2
              dsimp only at h1 h2
              injection h1 with h1
              injection h2 with h2
              subst h1
              subst h2
              rfl
        · rw [if_neg hu] at h1 h2
          obtain ⟨v, hv⟩ := hbound m0 (List.get?_mem hm0)
          have hv1 : umap1.map.lookup m0 = some v :=
            Rocketchat.list_reactions_mono hlr (IdMapper.lookup_get_mono _ hv)
          have hv2 : ((umap.get message.u_id).2).map.lookup m0 = some v :=
            IdMapper.lookup_get_mono _ hv
          rw [IdMapper.get_of_lookup hv1] at h1
          rw [IdMapper.get_of_lookup hv2] at h2
          dsimp only at h1 h2
          cases hur : ctx.user_id_to_recipient_id v with
          | none => rw [hur] at h1; cases h1
          | some recip =>
            rw [hur] at h1 h2
            dsimp only at h1 h2
            injection h1 with h1
            injection h2 with h2
            subst h1
            subst h2
            rfl

theorem claim9_witness :
    (Rocketchat1.separate_channel_and_private_messages ctx0.direct_id_to_direct_map [msgA]
        = some (Rocketchat.separate_channel_and_private_messages
            ctx0.direct_id_to_direct_map [msgA]))
    ∧ rawA.recipient_id = rawA1.recipient_id := by
  have h := claim9_thm
  constructor
  · apply h.1
    intro m hm
    have he : m = msgA := List.mem_singleton.1 hm
    subst he
    exact ⟨"d1", rfl, by decide⟩
  · have hbound : ∀ u ∈ (⟨["A", "B"]⟩ : DirectChannel).uids,
        ∃ v, umap0.map.lookup u = some v := by
      intro u hu
      rcases List.mem_cons.1 hu with he | hu2
      · subst he
        exact ⟨0, rfl⟩
      · have he : u = "B" := List.mem_singleton.1 hu2
        subst he
        exact ⟨1, rfl⟩
    exact h.2.2 ctx0 umap0 smap0 msgA "d1" ⟨["A", "B"]⟩ (rawA, umap0, smap0)
      (rawA1, umap0, smap0) rfl rfl hbound (by decide) (by decide)
